import Mathlib

/-!
Verification of the go-dbus client library (`dbus.go` and the spec of its
missing companion files) against its natural-language specification.

The embedding models:
* the D-Bus value/type system and the wire codec (marshalling is in the
  missing `marshall.go`, so the codec is modelled from the spec, §4.1);
* the `Connection` state and the dispatch loop of `dbus.go`
  (`_MessageDispatch`, `_PopMessage`, `_SendSync`, `Call`, `Handle`);
* address resolution in `Connect`;
* the method/signal lookup facade (`MethodByName` / `SignalByName`).

Go maps are modelled as association lists with overwrite-on-insert;
Go byte slices as `List Nat`; Go closures stored in tables as numeric
callback identifiers, with an event trace recording invocations.
-/

namespace GoDbus

/-! ### D-Bus types and values (spec §3 `arguments`, §4.1) -/

/-- A D-Bus type, as described by a signature (spec §3, §4.1). -/
inductive DType : Type where
  | byte | boolean | int16 | uint16 | int32 | uint32 | int64 | uint64 | double
  | string | objectPath | signatureT
  | array (elem : DType)
  | structT (fields : List DType)
  | dictEntry (key val : DType)
  | variant
  deriving Repr

/-- A D-Bus value. Go strings are byte sequences, modelled as `List Nat`;
a double is modelled by its 64-bit wire pattern. -/
inductive DValue : Type where
  | byte (b : Nat)
  | boolean (b : Bool)
  | int16 (i : Int)
  | uint16 (n : Nat)
  | int32 (i : Int)
  | uint32 (n : Nat)
  | int64 (i : Int)
  | uint64 (n : Nat)
  | double (bits : Nat)
  | string (s : List Nat)
  | objectPath (s : List Nat)
  | signatureV (s : List Nat)
  | array (elem : DType) (elems : List DValue)
  | structV (fields : List DValue)
  | dictEntry (key val : DValue)
  | variant (v : DValue)
  deriving Repr

mutual
/-- The D-Bus type of a value. -/
def typeOfV : DValue → DType
  | .byte _ => .byte
  | .boolean _ => .boolean
  | .int16 _ => .int16
  | .uint16 _ => .uint16
  | .int32 _ => .int32
  | .uint32 _ => .uint32
  | .int64 _ => .int64
  | .uint64 _ => .uint64
  | .double _ => .double
  | .string _ => .string
  | .objectPath _ => .objectPath
  | .signatureV _ => .signatureT
  | .array t _ => .array t
  | .structV fs => .structT (typeOfL fs)
  | .dictEntry k v => .dictEntry (typeOfV k) (typeOfV v)
  | .variant _ => .variant

/-- Types of a list of values. -/
def typeOfL : List DValue → List DType
  | [] => []
  | v :: vs => typeOfV v :: typeOfL vs
end

/-! ### Messages (spec §3, message.go is absent from src) -/

/-- Message type codes (message.go is absent; the codes and names follow the
spec §3: METHOD_CALL, METHOD_RETURN, ERROR, SIGNAL). -/
inductive MessageType : Type where
  | METHOD_CALL | METHOD_RETURN | ERROR | SIGNAL
  deriving Repr, DecidableEq

/-- Modelled from the spec: message.go is absent from src; per spec §3 a
Message carries a type, serial, reply serial, optional string header fields
and a typed argument list. Field names follow the Go code's uses in dbus.go
(`msg.Type` is rendered `msgType`; `Type` is reserved in Lean). -/
structure Message : Type where
  msgType : MessageType
  serial : Nat
  replySerial : Nat
  path : List Nat
  iface : List Nat
  member : List Nat
  dest : List Nat
  sender : List Nat
  sig : List Nat
  params : List DValue
  deriving Repr

/-! ### Go map model (association list with overwrite-on-insert) -/

/-- Lookup in a Go map modelled as an association list. -/
def mapLookup {α β : Type} [DecidableEq α] (m : List (α × β)) (k : α) : Option β :=
  match m with
  | [] => none
  | p :: rest => if p.1 = k then some p.2 else mapLookup rest k

/-- Insertion in a Go map: overwrite an existing binding, else append. -/
def mapInsert {α β : Type} [DecidableEq α] (m : List (α × β)) (k : α) (v : β) :
    List (α × β) :=
  match m with
  | [] => [(k, v)]
  | p :: rest => if p.1 = k then (k, v) :: rest else p :: mapInsert rest k v

/-- Deletion from a Go map (Go's `delete(m, k)`). -/
def mapDelete {α β : Type} [DecidableEq α] (m : List (α × β)) (k : α) :
    List (α × β) :=
  match m with
  | [] => []
  | p :: rest => if p.1 = k then mapDelete rest k else p :: mapDelete rest k

theorem mapLookup_mapDelete_ne {α β : Type} [DecidableEq α] (m : List (α × β))
    (k k' : α) (h : k' ≠ k) :
    mapLookup (mapDelete m k) k' = mapLookup m k' := by
  induction m with
  | nil => rfl
  | cons p rest ih =>
    by_cases hp : p.1 = k
    · have hpk' : p.1 ≠ k' := fun hh => h (by rw [← hh, hp])
      simp [mapDelete, mapLookup, hp, hpk', ih, Ne.symm h]
    · by_cases hk' : p.1 = k'
      · simp [mapDelete, mapLookup, hp, hk', h]
      · simp [mapDelete, mapLookup, hp, hk', ih]

/-! ### Match rules and connection state (dbus.go lines 98-112) -/

/-- Modelled from the spec: matchrule.go is absent from src; per spec §3 a
MatchRule holds optional sender, path, interface and member predicates
(unset = wildcard). -/
structure MatchRule : Type where
  sender : Option (List Nat)
  path : Option (List Nat)
  iface : Option (List Nat)
  member : Option (List Nat)

/-- Modelled from the spec: matchrule.go is absent from src; per spec §3 a
MatchRule "Matches a Message by field-wise equality on every set predicate". -/
def MatchRule._Match (mr : MatchRule) (msg : Message) : Bool :=
  (match mr.sender with | none => true | some s => s = msg.sender) &&
  (match mr.path with | none => true | some s => s = msg.path) &&
  (match mr.iface with | none => true | some s => s = msg.iface) &&
  (match mr.member with | none => true | some s => s = msg.member)

/-- One entry of `signalMatchRules` (dbus.go lines 98-101); the Go closure
`proc` is modelled as a numeric handler identifier. -/
structure signalHandler : Type where
  mr : MatchRule
  procId : Nat

/-- The mutable state of a `Connection` (dbus.go lines 104-112) relevant to
dispatch: the pending-call table (serial to callback id), the registered
signal handlers, the bus-assigned unique name and the next outbound serial
(spec §3 `next_serial`; serial assignment lives in the absent message.go). -/
structure ConnState : Type where
  uniqName : List Nat
  methodCallReplies : List (Nat × Nat)
  signalMatchRules : List signalHandler
  nextSerial : Nat

/-- Observable actions of the connection, recorded as an event trace:
invocation of a pending-call callback, invocation of a signal handler,
the `fmt.Println("ERROR")` of dbus.go line 305, the local registration of a
signal handler (dbus.go line 474) and a socket write of an outbound method
call (dbus.go line 335). -/
inductive Event : Type where
  | invoked (cb : Nat) (msg : Message)
  | signalInvoked (procId : Nat) (msg : Message)
  | printedError
  | appendedHandler (procId : Nat)
  | wroteCall (member : List Nat)

/-! ### The dispatcher (dbus.go lines 286-307, `_MessageDispatch`) -/

/-- The `for _, handler := range p.signalMatchRules` loop of dbus.go lines
299-303: each handler whose rule matches is invoked, in list order. -/
def dispatchSignals (hs : List signalHandler) (msg : Message) : List Event :=
  match hs with
  | [] => []
  | h :: rest =>
      (if h.mr._Match msg then [Event.signalInvoked h.procId msg] else []) ++
      dispatchSignals rest msg

/-- Shallow embedding of `_MessageDispatch` (dbus.go lines 286-307).
METHOD_RETURN: look up `replySerial` in `methodCallReplies`; if present,
invoke the callback then delete the entry (lines 292-297). SIGNAL: run the
match loop (lines 298-303). ERROR: print "ERROR" and nothing else (lines
304-306). METHOD_CALL falls through the switch with no effect. Returns the
new state and the trace of observable actions. -/
def _MessageDispatch (st : ConnState) (msg : Message) : ConnState × List Event :=
  match msg.msgType with
  | .METHOD_RETURN =>
      match mapLookup st.methodCallReplies msg.replySerial with
      | some cb =>
          ({ st with methodCallReplies := mapDelete st.methodCallReplies msg.replySerial },
           [Event.invoked cb msg])
      | none => (st, [])
  | .SIGNAL => (st, dispatchSignals st.signalMatchRules msg)
  | .ERROR => (st, [Event.printedError])
  | .METHOD_CALL => (st, [])

/-! ### The send path (dbus.go lines 326-340, 418-439, 472-476) -/

/-- ASCII bytes of a string literal (Go strings are byte slices). -/
def ascii (s : String) : List Nat := s.data.map Char.toNat

/-- A METHOD_CALL message aimed at the bus-daemon proxy object
(dbus.go lines 403-415 fix the path/interface/destination; dbus.go lines
418-431 fill the message from the method handle). The serial is taken from
the connection's counter; serial assignment itself lives in the absent
message.go (spec §3: `next_serial`, a monotonically increasing counter). -/
def mkProxyCall (st : ConnState) (member : List Nat) (args : List DValue) : Message :=
  { msgType := .METHOD_CALL
    serial := st.nextSerial
    replySerial := 0
    path := ascii "/org/freedesktop/DBus"
    iface := ascii "org.freedesktop.DBus"
    member := member
    dest := ascii "org.freedesktop.DBus"
    sender := []
    sig := []
    params := args }

/-- Send side of `_SendSync` (dbus.go lines 326-335): register the reply
callback under the message's serial, then write the marshalled call to the
socket. The blocking receive (line 336) is the dispatcher's business and is
not part of the send-side state transition. -/
def _SendSync_send (st : ConnState) (msg : Message) (cb : Nat) : ConnState × List Event :=
  ({ st with methodCallReplies := mapInsert st.methodCallReplies msg.serial cb },
   [Event.wroteCall msg.member])

/-- Send side of `Call` on a proxy method (dbus.go lines 418-434): build the
METHOD_CALL message and hand it to `_SendSync`, consuming one serial. -/
def Call_send (st : ConnState) (member : List Nat) (args : List DValue) (cb : Nat) :
    ConnState × List Event :=
  _SendSync_send { st with nextSerial := st.nextSerial + 1 }
    (mkProxyCall st member args) cb

/-- Shallow embedding of `Handle` (dbus.go lines 473-476): first append the
(rule, handler) pair to `signalMatchRules` (line 474), then issue the
`AddMatch` call to the bus daemon (line 475). The trace records the two
steps in program order. -/
def Handle (st : ConnState) (rule : MatchRule) (procId cb : Nat) : ConnState × List Event :=
  let st1 := { st with signalMatchRules := st.signalMatchRules ++ [⟨rule, procId⟩] }
  let r := Call_send st1 (ascii "AddMatch") [DValue.string (ascii "rule")] cb
  (r.1, Event.appendedHandler procId :: r.2)

/-! ### Error discarding in the call path (dbus.go lines 326-338, 418-439) -/

/-- Value-with-error pair, the shape of a Go `(T, error)` return. -/
def GoRet (α : Type) : Type := α × Option String

/-- Error component of `_SendSync` (dbus.go lines 326-338), with the results
of `msg._Marshal()` (line 334, `buff, _ :=` discards the error) and of
`p.conn.Write(buff)` (line 335, both results discarded) injected as
parameters (marshall.go and the socket are outside src). The function
returns `nil` (line 337) no matter what those results were. -/
def _SendSync_err (marshalRes : GoRet (List Nat)) (writeRes : GoRet Nat) :
    Option String :=
  let _buff := marshalRes.1
  let _ := writeRes
  none

/-- Result of `Call` (dbus.go lines 418-439): the reply parameters captured
by the callback, paired with the returned error. The value returned by
`p._SendSync(...)` is itself discarded (line 434) and `Call` returns
`ret, nil` (line 438). -/
def Call_result (marshalRes : GoRet (List Nat)) (writeRes : GoRet Nat)
    (replyParams : List DValue) : List DValue × Option String :=
  let _ := _SendSync_err marshalRes writeRes
  (replyParams, none)

/-! ### The Hello exchange and `uniqName` (dbus.go lines 104-112, 340) -/

/-- The METHOD_RETURN answering the Hello call (serial 1), carrying the
bus-assigned unique name as its single string argument (spec §8,
end-to-end scenario 2). -/
def helloReply (name : List Nat) : Message :=
  { msgType := .METHOD_RETURN
    serial := 0
    replySerial := 1
    path := []
    iface := []
    member := []
    dest := []
    sender := []
    sig := ascii "s"
    params := [DValue.string name] }

/-- Effect of the callback `_SendSync` registers for a `Call`
(dbus.go lines 434-436): the closure body is `ret = reply.Params` — it
assigns the local `ret` and touches no field of the `Connection`. -/
def helloCallbackEffect (st : ConnState) (reply : Message) : ConnState × List DValue :=
  (st, reply.params)

/-- A connection right after `_SendHello` sent the Hello call: serial 1 is
pending with callback id 0, `uniqName` still holds its zero value `""`. -/
def freshConn : ConnState :=
  { uniqName := []
    methodCallReplies := [(1, 0)]
    signalMatchRules := []
    nextSerial := 2 }

/-- The complete Hello exchange as the code performs it: the dispatcher
matches the reply to pending serial 1 and invokes the callback; the callback
(dbus.go lines 434-436) only assigns the local `ret`; `_SendHello`
(dbus.go line 340) discards `Call`'s return value. No statement in dbus.go
ever assigns `Connection.uniqName`. -/
def helloExchange (st : ConnState) (name : List Nat) : ConnState :=
  let d := _MessageDispatch st (helloReply name)
  (helloCallbackEffect d.1 (helloReply name)).1

/-! ### `_PopMessage` (dbus.go lines 309-316) -/

/-- Decode outcomes, per the spec §7 taxonomy: `Incomplete` is the
more-bytes-needed retry signal, `Malformed` a true parse failure. -/
inductive UnmarshalError : Type where
  | Incomplete
  | Malformed
  deriving Repr, DecidableEq

/-- Shallow embedding of `_PopMessage` (dbus.go lines 309-316), parameterized
by the decoder `_Unmarshal` (marshall.go is absent from src): on a decode
error the buffer is untouched (lines 310-313); on success the first `n`
bytes are removed (`p.buffer.Read(make([]byte, n))`, line 314 — `List.drop`
matches `bytes.Buffer.Read`, which removes `min n len` bytes). -/
def _PopMessage (unmarshalF : List Nat → Except UnmarshalError (Message × Nat))
    (buffer : List Nat) : Except UnmarshalError Message × List Nat :=
  match unmarshalF buffer with
  | .error e => (.error e, buffer)
  | .ok (msg, n) => (.ok msg, buffer.drop n)

/-! ### `Connect` address resolution (dbus.go lines 199-241) -/

/-- Index of the first `':'` in the address, as `strings.Index(address, ":")`
(dbus.go line 218); `none` models Go's `-1`, on which the slice
`address[:-1]` would panic. -/
def colonIdx : List Char → Option Nat
  | [] => none
  | c :: rest => if c = ':' then some 0 else (colonIdx rest).map (· + 1)

/-- Go's `strings.Split` on a one-character separator (dbus.go lines 222-223);
`strings.Split("", sep)` is `[""]`, hence the base case. -/
def splitOnChar (sep : Char) : List Char → List (List Char)
  | [] => [[]]
  | c :: rest =>
      let r := splitOnChar sep rest
      if c = sep then [] :: r
      else
        match r with
        | [] => [[c]]
        | g :: gs => (c :: g) :: gs

/-- The loop of dbus.go lines 222-225: split each `key=value` pair on `"="`
and store it in `addressMap`. A pair with no `"="` makes Go's `pair[1]` panic
(index out of range), modelled by `none`. A pair with several `"="` uses the
first two fragments, as Go's `pair[0]`/`pair[1]` do. -/
def buildAddrMap (m : List (List Char × List Char)) :
    List (List Char) → Option (List (List Char × List Char))
  | [] => some m
  | seg :: rest =>
      match splitOnChar '=' seg with
      | k :: v :: _ => buildAddrMap (mapInsert m k v) rest
      | _ => none

/-- The key-resolution block of dbus.go lines 227-233: a `path` entry is the
dial address as given; otherwise an `abstract` entry is dialed with a `"@"`
prefix; otherwise `Connect` fails with "Unknown address key". -/
def resolveDialAddr (m : List (List Char × List Char)) : Except String (List Char) :=
  match mapLookup m "path".toList with
  | some a => .ok a
  | none =>
      match mapLookup m "abstract".toList with
      | some a => .ok ('@' :: a)
      | none => .error "Unknown address key"

/-- Outcome of the address-resolution part of `Connect`: the transport and
dial address handed to `net.Dial` plus the parsed address map, an error
return, or a Go runtime panic (negative slice index / index out of range). -/
inductive ConnectResult : Type where
  | conn (transport dialAddr : List Char) (addrMap : List (List Char × List Char))
  | connError (msg : String)
  | panicked
  deriving Repr, DecidableEq

/-- Shallow embedding of `Connect` (dbus.go lines 199-241) up to the
`net.Dial` call: bus selection from the environment (`SessionBus = 0`,
`SystemBus = 1`, any other value errors with "Unknown bus"); for the system
bus an unset/empty `DBUS_SYSTEM_BUS_ADDRESS` falls back to
`unix:path=/var/run/dbus/system_bus_socket` (lines 206-209); an empty
address errors (lines 215-217); then transport split, address-map parse and
key resolution as above. `env` models `os.Getenv` (empty string = unset). -/
def connectResolve (busType : Int) (env : String → String) : ConnectResult :=
  let addrE : Except String (List Char) :=
    if busType = 0 then .ok (env "DBUS_SESSION_BUS_ADDRESS").toList
    else if busType = 1 then
      .ok (if (env "DBUS_SYSTEM_BUS_ADDRESS").toList = [] then
             "unix:path=/var/run/dbus/system_bus_socket".toList
           else (env "DBUS_SYSTEM_BUS_ADDRESS").toList)
    else .error "Unknown bus"
  match addrE with
  | .error e => .connError e
  | .ok address =>
      if address.length = 0 then .connError "Unknown bus address"
      else
        match colonIdx address with
        | none => .panicked
        | some i =>
            let transport := address.take i
            match buildAddrMap [] (splitOnChar ',' (address.drop (i + 1))) with
            | none => .panicked
            | some m =>
                match resolveDialAddr m with
                | .ok dial => .conn transport dial m
                | .error e => .connError e

/-! ### Method/signal lookup facade (dbus.go lines 181-197) -/

/-- Introspected method descriptor (introspect.go is absent from src; per
spec §6 a method exposes its name and input/output signatures). -/
structure MethodData : Type where
  mname : String
  inSig : String
  outSig : String
  deriving Repr, DecidableEq

/-- Introspected signal descriptor (spec §6: name and signature). -/
structure SignalData : Type where
  sname : String
  ssig : String
  deriving Repr, DecidableEq

/-- Introspection catalog of one interface (spec §6: ordered methods and
signals). -/
structure InterfaceData : Type where
  methods : List MethodData
  signals : List SignalData
  deriving Repr, DecidableEq

/-- Modelled from the spec: introspect.go is absent from src; per spec §6 the
catalog is looked up by name, and dbus.go lines 182-183 and 192-193 show the
lookup returning nil when the name is absent. -/
def InterfaceData.MethodByName (d : InterfaceData) (name : String) : Option MethodData :=
  d.methods.find? (fun m => m.mname == name)

/-- Modelled from the spec: signal lookup by name, as for methods. -/
def InterfaceData.SignalByName (d : InterfaceData) (name : String) : Option SignalData :=
  d.signals.find? (fun s => s.sname == name)

/-- Result of a facade lookup: either a Go `panic(msg)` aborting the process
or a (necessarily non-nil) handle. -/
inductive PanicOr (α : Type) : Type where
  | panicked (msg : String)
  | ok (v : α)
  deriving Repr, DecidableEq

/-- Shallow embedding of `(*_interface).MethodByName` (dbus.go lines
181-187): panic "invalid method" when the introspection lookup returns nil,
otherwise return the wrapped handle. -/
def iface_MethodByName (d : InterfaceData) (name : String) : PanicOr MethodData :=
  match d.MethodByName name with
  | none => .panicked "invalid method"
  | some m => .ok m

/-- Shallow embedding of `(*_interface).SignalByName` (dbus.go lines
191-197): panic "invalid signal" when the introspection lookup returns nil,
otherwise return the wrapped handle. -/
def iface_SignalByName (d : InterfaceData) (name : String) : PanicOr SignalData :=
  match d.SignalByName name with
  | none => .panicked "invalid signal"
  | some s => .ok s

/-! ### Claim theorems: dispatcher (C1, C2, C4) -/

theorem dispatchSignals_eq (hs : List signalHandler) (msg : Message) :
    dispatchSignals hs msg =
      (hs.filter (fun h => h.mr._Match msg)).map
        (fun h => Event.signalInvoked h.procId msg) := by
  induction hs with
  | nil => rfl
  | cons h rest ih =>
    by_cases hm : h.mr._Match msg
    · simp [dispatchSignals, List.filter_cons, hm, ih]
    · simp [dispatchSignals, List.filter_cons, hm, ih]

/-- Test fixture: an ERROR message whose replySerial 5 has a pending entry. -/
def errMsgC1 : Message :=
  { msgType := .ERROR, serial := 0, replySerial := 5, path := [], iface := [],
    member := [], dest := [], sender := [], sig := [], params := [] }

/-- Test fixture: a connection with callback 99 pending under serial 5. -/
def stC1 : ConnState :=
  { uniqName := [], methodCallReplies := [(5, 99)], signalMatchRules := [],
    nextSerial := 6 }

/-- Claim C1, counterexample: an incoming ERROR message whose replySerial 5
matches the pending entry (5, 99) does NOT have that entry removed, nor is
callback 99 invoked — dbus.go lines 304-306 only print "ERROR". This
refutes the claim that ERROR is handled exactly as METHOD_RETURN. -/
theorem claim_C1_counterexample :
    ¬(mapLookup (_MessageDispatch stC1 errMsgC1).1.methodCallReplies 5 = none ∧
      Event.invoked 99 errMsgC1 ∈ (_MessageDispatch stC1 errMsgC1).2) := by
  intro h
  have h2 := h.2
  simp [_MessageDispatch, stC1, errMsgC1] at h2

/-- Claim C1 (amended): for every incoming ERROR message the dispatcher does
not consult pending_calls at all: it prints "ERROR" (dbus.go line 305),
invokes no callback, and leaves the connection state unchanged; only
METHOD_RETURN messages are correlated by replySerial. -/
theorem claim_C1_error_dropped (st : ConnState) (msg : Message)
    (hT : msg.msgType = .ERROR) :
    _MessageDispatch st msg = (st, [Event.printedError]) := by
  simp [_MessageDispatch, hT]

/-- Witness for C1 (amended) at the concrete fixture. -/
theorem claim_C1_error_dropped_witness :
    _MessageDispatch stC1 errMsgC1 = (stC1, [Event.printedError]) :=
  claim_C1_error_dropped stC1 errMsgC1 rfl

/-- Claim C2: a METHOD_RETURN whose replySerial has a registered entry has
exactly that entry removed and its callback invoked exactly once (every
other serial's entry survives with the same callback); with no registered
entry the message is dropped and the table is unchanged
(dbus.go lines 292-297). -/
theorem claim_C2_method_return_correlation (st : ConnState) (msg : Message)
    (cb : Nat) (hT : msg.msgType = .METHOD_RETURN) :
    (mapLookup st.methodCallReplies msg.replySerial = some cb →
      _MessageDispatch st msg =
        ({ st with methodCallReplies := mapDelete st.methodCallReplies msg.replySerial },
         [Event.invoked cb msg]) ∧
      ∀ s, s ≠ msg.replySerial →
        mapLookup (mapDelete st.methodCallReplies msg.replySerial) s =
          mapLookup st.methodCallReplies s) ∧
    (mapLookup st.methodCallReplies msg.replySerial = none →
      _MessageDispatch st msg = (st, [])) := by
  constructor
  · intro hl
    refine ⟨?_, fun s hs => mapLookup_mapDelete_ne _ _ _ hs⟩
    simp [_MessageDispatch, hT, hl]
  · intro hl
    simp [_MessageDispatch, hT, hl]

/-- Test fixture: METHOD_RETURN for serial 7. -/
def retMsgC2 : Message :=
  { msgType := .METHOD_RETURN, serial := 0, replySerial := 7, path := [],
    iface := [], member := [], dest := [], sender := [], sig := [], params := [] }

/-- Test fixture: callbacks 3 and 4 pending under serials 7 and 9. -/
def stC2 : ConnState :=
  { uniqName := [], methodCallReplies := [(7, 3), (9, 4)],
    signalMatchRules := [], nextSerial := 10 }

/-- Witness for C2: the reply for serial 7 invokes callback 3 only, removes
only entry 7, and serial 9's entry is still there. -/
theorem claim_C2_method_return_correlation_witness :
    _MessageDispatch stC2 retMsgC2 =
      ({ stC2 with methodCallReplies := mapDelete stC2.methodCallReplies 7 },
       [Event.invoked 3 retMsgC2]) ∧
    mapLookup (mapDelete stC2.methodCallReplies 7) 9 = some 4 := by
  have h := (claim_C2_method_return_correlation stC2 retMsgC2 3 rfl).1 rfl
  exact ⟨h.1, (h.2 9 (by decide)).trans rfl⟩

/-- Claim C4: for an incoming SIGNAL every registered (rule, handler) pair is
evaluated in registration order and exactly the matching ones have their
handler invoked, in that order (the trace equals the order-preserving
filter of the handler list); the state is unchanged, and with no matching
rule nothing is invoked (dbus.go lines 298-303). -/
theorem claim_C4_signal_dispatch (st : ConnState) (msg : Message)
    (hT : msg.msgType = .SIGNAL) :
    _MessageDispatch st msg =
      (st, (st.signalMatchRules.filter (fun h => h.mr._Match msg)).map
            (fun h => Event.signalInvoked h.procId msg)) ∧
    ((∀ h ∈ st.signalMatchRules, h.mr._Match msg = false) →
      _MessageDispatch st msg = (st, [])) := by
  have hd : _MessageDispatch st msg = (st, dispatchSignals st.signalMatchRules msg) := by
    simp [_MessageDispatch, hT]
  constructor
  · rw [hd, dispatchSignals_eq]
  · intro hnone
    rw [hd, dispatchSignals_eq]
    have hf : st.signalMatchRules.filter (fun h => h.mr._Match msg) = [] := by
      rw [List.filter_eq_nil_iff]
      intro h hh
      simp [hnone h hh]
    rw [hf]
    rfl

/-- Test fixture: a SIGNAL on interface "I". -/
def sigMsgC4 : Message :=
  { msgType := .SIGNAL, serial := 0, replySerial := 0, path := [],
    iface := ascii "I", member := [], dest := [], sender := [], sig := [],
    params := [] }

/-- Test fixture: handler 11 matches interface "I", handler 22 wants "J",
handler 33 is a wildcard rule matching everything. -/
def stC4 : ConnState :=
  { uniqName := [], methodCallReplies := [],
    signalMatchRules :=
      [⟨⟨none, none, some (ascii "I"), none⟩, 11⟩,
       ⟨⟨none, none, some (ascii "J"), none⟩, 22⟩,
       ⟨⟨none, none, none, none⟩, 33⟩],
    nextSerial := 1 }

/-- Witness for C4: handlers 11 and 33 fire, in registration order; 22 does
not; the state is unchanged. -/
theorem claim_C4_signal_dispatch_witness :
    _MessageDispatch stC4 sigMsgC4 =
      (stC4, [Event.signalInvoked 11 sigMsgC4, Event.signalInvoked 33 sigMsgC4]) := by
  have h := (claim_C4_signal_dispatch stC4 sigMsgC4 rfl).1
  rw [h]
  rfl

/-! ### Claim theorems: Handle ordering (C5) and Call error path (C9) -/

/-- Claim C5: in every execution of `Handle`, the (rule, handler) pair is
appended to `signalMatchRules` strictly before the AddMatch call is written
to the bus: the trace is the registration event followed by the socket
write, and the resulting handler list has the pair appended
(dbus.go lines 473-476). -/
theorem claim_C5_register_before_addmatch (st : ConnState) (rule : MatchRule)
    (procId cb : Nat) :
    (Handle st rule procId cb).2 =
      [Event.appendedHandler procId, Event.wroteCall (ascii "AddMatch")] ∧
    (Handle st rule procId cb).1.signalMatchRules =
      st.signalMatchRules ++ [⟨rule, procId⟩] :=
  ⟨rfl, rfl⟩

/-- Claim C9: `Call` returns a nil error whatever happens underneath: the
marshalling error (dbus.go line 334), the socket-write error (line 335) and
`_SendSync`'s own return value (line 434) are all discarded, and `Call`
returns `ret, nil` (line 438). -/
theorem claim_C9_call_error_always_nil (marshalRes : GoRet (List Nat))
    (writeRes : GoRet Nat) (ps : List DValue) :
    (Call_result marshalRes writeRes ps).2 = none ∧
    _SendSync_err marshalRes writeRes = none :=
  ⟨rfl, rfl⟩

/-! ### Claim theorem: uniqName is never assigned (C3) -/

/-- Claim C3 is false of the code: after the complete Hello exchange the
connection's `uniqName` still holds its zero value `""` and not the unique
name `":1.42"` carried by the reply — the callback installed for `Call`
only assigns the local `ret` (dbus.go lines 434-436), `_SendHello` discards
`Call`'s result (line 340), and no statement of dbus.go ever writes
`Connection.uniqName`. -/
theorem claim_C3_uniqName_never_set :
    (helloExchange freshConn (ascii ":1.42")).uniqName = [] ∧
    ascii ":1.42" ≠ [] ∧
    (helloExchange freshConn (ascii ":1.42")).uniqName ≠ ascii ":1.42" :=
  ⟨rfl, by decide, by decide⟩

/-! ### Claim theorem: _PopMessage consumes exactly on success (C6) -/

/-- Claim C6: when the decoder fails (in particular with `Incomplete`),
`_PopMessage` removes zero bytes from the buffer; when it succeeds reporting
`n` consumed bytes (with `n` within the buffer, as a correct decoder
reports), exactly the first `n` bytes are removed (dbus.go lines 309-316).
Stated for every decoder `f`, covering the absent marshall.go. -/
theorem claim_C6_pop_consumes_exactly
    (f : List Nat → Except UnmarshalError (Message × Nat)) (buffer : List Nat) :
    (∀ e, f buffer = .error e → _PopMessage f buffer = (.error e, buffer)) ∧
    (∀ msg n, f buffer = .ok (msg, n) → n ≤ buffer.length →
      _PopMessage f buffer = (.ok msg, buffer.drop n) ∧
      buffer.take n ++ (_PopMessage f buffer).2 = buffer ∧
      (buffer.take n).length = n) := by
  constructor
  · intro e he
    simp [_PopMessage, he]
  · intro msg n hok hn
    refine ⟨by simp [_PopMessage, hok], ?_, by simp [hn]⟩
    simp [_PopMessage, hok, List.take_append_drop]

/-- Test fixture: a decoder that needs at least 4 bytes, then consumes 4. -/
def decoderC6 : List Nat → Except UnmarshalError (Message × Nat) :=
  fun b => if b.length < 4 then .error .Incomplete else .ok (errMsgC1, 4)

/-- Witness for C6: on a 2-byte buffer the decoder says Incomplete and the
buffer is untouched; on a 5-byte buffer exactly 4 bytes are consumed. -/
theorem claim_C6_pop_consumes_exactly_witness :
    _PopMessage decoderC6 [0, 1] = (.error .Incomplete, [0, 1]) ∧
    _PopMessage decoderC6 [0, 1, 2, 3, 4] = (.ok errMsgC1, [4]) := by
  constructor
  · exact (claim_C6_pop_consumes_exactly decoderC6 [0, 1]).1 .Incomplete rfl
  · exact ((claim_C6_pop_consumes_exactly decoderC6 [0, 1, 2, 3, 4]).2
      errMsgC1 4 rfl (by decide)).1

/-! ### Claim theorem: Connect address resolution (C7) -/

/-- Claim C7: with `DBUS_SYSTEM_BUS_ADDRESS` unset, `Connect(SystemBus)`
resolves the fixed fallback `unix:path=/var/run/dbus/system_bus_socket` and
dials transport "unix" with the path as given; in general a `path` entry is
dialed verbatim, an `abstract` entry with a `"@"` prefix, and an address map
with neither key yields the "Unknown address key" error and no connection
(dbus.go lines 199-241). -/
theorem claim_C7_connect_address_resolution (env : String → String)
    (m : List (List Char × List Char)) :
    (env "DBUS_SYSTEM_BUS_ADDRESS" = "" →
      connectResolve 1 env =
        .conn "unix".toList "/var/run/dbus/system_bus_socket".toList
          [("path".toList, "/var/run/dbus/system_bus_socket".toList)]) ∧
    (∀ v, mapLookup m "path".toList = some v → resolveDialAddr m = .ok v) ∧
    (∀ v, mapLookup m "path".toList = none →
      mapLookup m "abstract".toList = some v →
      resolveDialAddr m = .ok ('@' :: v)) ∧
    (mapLookup m "path".toList = none → mapLookup m "abstract".toList = none →
      resolveDialAddr m = .error "Unknown address key") := by
  refine ⟨?_, ?_, ?_, ?_⟩
  · intro h
    unfold connectResolve
    rw [h]
    simp only [if_neg (by decide : ¬((1 : Int) = 0)), if_pos (rfl : (1 : Int) = 1)]
    decide
  · intro v hv
    unfold resolveDialAddr
    rw [hv]
  · intro v hp ha
    unfold resolveDialAddr
    rw [hp, ha]
  · intro hp ha
    unfold resolveDialAddr
    rw [hp, ha]

/-- Witness for C7: the fallback resolution with the environment entirely
unset, a concrete abstract address gaining its "@" prefix, and a map with
neither key erroring out. -/
theorem claim_C7_connect_address_resolution_witness :
    connectResolve 1 (fun _ => "") =
      .conn "unix".toList "/var/run/dbus/system_bus_socket".toList
        [("path".toList, "/var/run/dbus/system_bus_socket".toList)] ∧
    resolveDialAddr [("abstract".toList, "dbus-test".toList)] =
      .ok ('@' :: "dbus-test".toList) ∧
    resolveDialAddr [("guid".toList, "abc".toList)] =
      .error "Unknown address key" := by
  refine ⟨(claim_C7_connect_address_resolution (fun _ => "") []).1 rfl, ?_, ?_⟩
  · exact (claim_C7_connect_address_resolution (fun _ => "")
      [("abstract".toList, "dbus-test".toList)]).2.2.1 "dbus-test".toList
      (by decide) (by decide)
  · exact (claim_C7_connect_address_resolution (fun _ => "")
      [("guid".toList, "abc".toList)]).2.2.2 (by decide) (by decide)

/-! ### Claim theorem: panic-on-missing lookups (C10) -/

/-- Claim C10: `MethodByName` / `SignalByName` panic ("invalid method" /
"invalid signal") exactly when the introspection catalog has no entry of
that name, and return the (non-nil) handle otherwise
(dbus.go lines 181-187 and 191-197). -/
theorem claim_C10_lookup_panics_on_missing (d : InterfaceData) (name : String) :
    (d.MethodByName name = none →
      iface_MethodByName d name = .panicked "invalid method") ∧
    (∀ m, d.MethodByName name = some m → iface_MethodByName d name = .ok m) ∧
    (d.SignalByName name = none →
      iface_SignalByName d name = .panicked "invalid signal") ∧
    (∀ s, d.SignalByName name = some s → iface_SignalByName d name = .ok s) := by
  refine ⟨?_, ?_, ?_, ?_⟩
  · intro h; simp [iface_MethodByName, h]
  · intro m h; simp [iface_MethodByName, h]
  · intro h; simp [iface_SignalByName, h]
  · intro s h; simp [iface_SignalByName, h]

/-- Test fixture: a catalog with one method "Hello" and one signal
"NameLost". -/
def catalogC10 : InterfaceData :=
  { methods := [⟨"Hello", "", "s"⟩], signals := [⟨"NameLost", "s"⟩] }

/-- Witness for C10: looking up present and absent names in the fixture. -/
theorem claim_C10_lookup_panics_on_missing_witness :
    iface_MethodByName catalogC10 "Hello" = .ok ⟨"Hello", "", "s"⟩ ∧
    iface_MethodByName catalogC10 "Absent" = .panicked "invalid method" ∧
    iface_SignalByName catalogC10 "NameLost" = .ok ⟨"NameLost", "s"⟩ ∧
    iface_SignalByName catalogC10 "Absent" = .panicked "invalid signal" := by
  refine ⟨?_, ?_, ?_, ?_⟩
  · exact (claim_C10_lookup_panics_on_missing catalogC10 "Hello").2.1 _ rfl
  · exact (claim_C10_lookup_panics_on_missing catalogC10 "Absent").1 rfl
  · exact (claim_C10_lookup_panics_on_missing catalogC10 "NameLost").2.2.2 _ rfl
  · exact (claim_C10_lookup_panics_on_missing catalogC10 "Absent").2.2.1 rfl

/-! ### Codec primitives (spec §4.1; marshall.go is absent from src, so the
whole codec is modelled from the spec) -/

/-- Padding bytes needed to bring offset `off` up to alignment `a`
(spec §4.1: "Before every value, padding bytes (value 0) are inserted up to
the type's required alignment"). -/
def padAmt (a off : Nat) : Nat := (a - off % a) % a

/-- The offset after aligning `off` to `a`. -/
def alignOff (a off : Nat) : Nat := off + padAmt a off

/-- The zero padding bytes themselves. -/
def alignPad (a off : Nat) : List Nat := List.replicate (padAmt a off) 0

theorem length_alignPad (a off : Nat) : (alignPad a off).length = padAmt a off := by
  simp [alignPad]

theorem alignOff_dvd (a off : Nat) (ha : 0 < a) : alignOff a off % a = 0 := by
  have hr : off % a < a := Nat.mod_lt _ ha
  have hqr : a * (off / a) + off % a = off := Nat.div_add_mod off a
  rcases Nat.eq_zero_or_pos (off % a) with h | h
  · have hp : padAmt a off = 0 := by
      unfold padAmt
      rw [h, Nat.sub_zero, Nat.mod_self]
    unfold alignOff
    rw [hp, Nat.add_zero]
    exact h
  · have hp : padAmt a off = a - off % a := by
      unfold padAmt
      exact Nat.mod_eq_of_lt (by omega)
    have hx : off + (a - off % a) = a * (off / a) + a := by omega
    unfold alignOff
    rw [hp, hx, ← Nat.mul_succ]
    exact Nat.mul_mod_right a _

/-- Little-endian encoding of `n` on `w` bytes (spec §4.1: fixed-size scalars
in the connection's byte order, little-endian by default). -/
def natLE : Nat → Nat → List Nat
  | 0, _ => []
  | w + 1, n => (n % 256) :: natLE w (n / 256)

/-- Little-endian value of a byte list. -/
def leVal : List Nat → Nat
  | [] => 0
  | b :: rest => b + 256 * leVal rest

theorem length_natLE (w n : Nat) : (natLE w n).length = w := by
  induction w generalizing n with
  | zero => rfl
  | succ w ih => simp [natLE, ih]

theorem leVal_natLE (w n : Nat) : leVal (natLE w n) = n % 256 ^ w := by
  induction w generalizing n with
  | zero => simp [natLE, leVal, Nat.mod_one]
  | succ w ih =>
    rw [natLE, leVal, ih]
    rw [pow_succ, mul_comm (256 ^ w) 256, Nat.mod_mul]

theorem leVal_natLE_of_lt (w n : Nat) (h : n < 256 ^ w) : leVal (natLE w n) = n := by
  rw [leVal_natLE, Nat.mod_eq_of_lt h]

/-- Two's-complement image of a signed integer on `w` bytes. -/
def toU (w : Nat) (i : Int) : Nat := (i % ((256 : Int) ^ w)).toNat

/-- Signed reading of a `w`-byte unsigned value. -/
def fromU (w n : Nat) : Int :=
  if n < 256 ^ w / 2 then (n : Int) else (n : Int) - (256 : Int) ^ w

theorem fromU_toU (w : Nat) (i : Int) (hw : 0 < w)
    (h1 : -((256 : Int) ^ w / 2) ≤ i) (h2 : i < (256 : Int) ^ w / 2) :
    fromU w (toU w i) = i := by
  have hpow : (0 : Int) < (256 : Int) ^ w := by positivity
  have hcast : ((256 ^ w / 2 : Nat) : Int) = (256 : Int) ^ w / 2 := by
    push_cast
    rfl
  have hhalf : (256 : Int) ^ w / 2 * 2 = (256 : Int) ^ w := by
    obtain ⟨w', rfl⟩ : ∃ w', w = w' + 1 := ⟨w - 1, by omega⟩
    rw [pow_succ]
    have hk : (0 : Int) < (256 : Int) ^ w' := by positivity
    have hdd : (256 : Int) ^ w' * 256 / 2 = (256 : Int) ^ w' * 128 := by
      rw [show (256 : Int) = 128 * 2 by norm_num, ← mul_assoc]
      exact Int.mul_ediv_cancel _ (by norm_num)
    rw [hdd]
    ring
  rcases le_or_lt 0 i with hi | hi
  · have hmod : i % (256 : Int) ^ w = i := Int.emod_eq_of_lt hi (by omega)
    have ht : toU w i = i.toNat := by rw [toU, hmod]
    rw [fromU, ht]
    have hlt : i.toNat < 256 ^ w / 2 := by
      have h3 : (i.toNat : Int) < ((256 ^ w / 2 : Nat) : Int) := by
        rw [Int.toNat_of_nonneg hi, hcast]
        exact h2
      exact_mod_cast h3
    rw [if_pos hlt]
    omega
  · have hmod : i % (256 : Int) ^ w = i + (256 : Int) ^ w := by
      have hstep : (i + (256 : Int) ^ w * 1) % (256 : Int) ^ w = i % (256 : Int) ^ w :=
        Int.add_mul_emod_self_left i ((256 : Int) ^ w) 1
      rw [mul_one] at hstep
      have h0 : (0 : Int) ≤ i + (256 : Int) ^ w := by omega
      have hlt : i + (256 : Int) ^ w < (256 : Int) ^ w := by omega
      rw [← hstep]
      exact Int.emod_eq_of_lt h0 hlt
    have ht : toU w i = (i + (256 : Int) ^ w).toNat := by rw [toU, hmod]
    rw [fromU, ht]
    have h0 : (0 : Int) ≤ i + (256 : Int) ^ w := by omega
    have hge : ¬((i + (256 : Int) ^ w).toNat < 256 ^ w / 2) := by
      intro hcontra
      have h3 : ((i + (256 : Int) ^ w).toNat : Int) < ((256 ^ w / 2 : Nat) : Int) := by
        exact_mod_cast hcontra
      rw [Int.toNat_of_nonneg h0, hcast] at h3
      omega
    rw [if_neg hge, Int.toNat_of_nonneg h0]
    omega

/-- Read one byte of the stream at offset `off`. -/
def readByte : List Nat → Nat → Option Nat
  | [], _ => none
  | b :: _, 0 => some b
  | _ :: rest, n + 1 => readByte rest n

/-- Read `n` bytes of the stream starting at offset `off`. -/
def readChunk (bytes : List Nat) (off n : Nat) : Option (List Nat) :=
  if off + n ≤ bytes.length then some ((bytes.drop off).take n) else none

theorem readByte_append (l1 : List Nat) (b : Nat) (l2 : List Nat) (k : Nat)
    (hk : l1.length = k) : readByte (l1 ++ b :: l2) k = some b := by
  induction l1 generalizing k with
  | nil => subst hk; rfl
  | cons x rest ih =>
    subst hk
    simpa [readByte] using ih rest.length rfl

theorem readChunk_append (l1 mid l2 : List Nat) (k n : Nat)
    (hk : l1.length = k) (hn : mid.length = n) :
    readChunk (l1 ++ mid ++ l2) k n = some mid := by
  subst hk
  subst hn
  have hle : l1.length + mid.length ≤ (l1 ++ mid ++ l2).length := by
    simp
  rw [readChunk, if_pos hle, List.append_assoc, List.drop_left, List.take_left]

/-- Alignment of each D-Bus type (spec §4.1): 1 for byte/signature/variant,
2 for the 16-bit integers, 4 for bool/32-bit/string/object-path/array,
8 for the 64-bit scalars, double, struct and dict-entry. -/
def DType.alignment : DType → Nat
  | .byte => 1
  | .boolean => 4
  | .int16 => 2
  | .uint16 => 2
  | .int32 => 4
  | .uint32 => 4
  | .int64 => 8
  | .uint64 => 8
  | .double => 8
  | .string => 4
  | .objectPath => 4
  | .signatureT => 1
  | .array _ => 4
  | .structT _ => 8
  | .dictEntry _ _ => 8
  | .variant => 1

mutual
/-- Signature bytes of a type (spec §3: `"su"` = string + uint32; the codes
are the standard D-Bus ASCII codes y b n q i u x t d s o g a ( ) \x7b \x7d v). -/
def sigCodes : DType → List Nat
  | .byte => [121]
  | .boolean => [98]
  | .int16 => [110]
  | .uint16 => [113]
  | .int32 => [105]
  | .uint32 => [117]
  | .int64 => [120]
  | .uint64 => [116]
  | .double => [100]
  | .string => [115]
  | .objectPath => [111]
  | .signatureT => [103]
  | .array t => 97 :: sigCodes t
  | .structT ts => 40 :: (sigCodesL ts ++ [41])
  | .dictEntry k v => 123 :: (sigCodes k ++ sigCodes v ++ [125])
  | .variant => [118]

/-- Signature bytes of a type sequence. -/
def sigCodesL : List DType → List Nat
  | [] => []
  | t :: ts => sigCodes t ++ sigCodesL ts
end

/-! ### Encoder (modelled from spec §4.1's encoding contract) -/

mutual
/-- Bytes appended when encoding value `v` at offset `off` from the body
start (spec §4.1): padding to the type's alignment, then the value. Arrays
carry a 4-byte byte-length of the element data (padding to the element
alignment excluded), structs and dict entries align to 8, variants embed
the contained value's signature. -/
def marshalValue (off : Nat) : DValue → List Nat
  | .byte b => [b]
  | .boolean b => alignPad 4 off ++ natLE 4 (if b then 1 else 0)
  | .int16 i => alignPad 2 off ++ natLE 2 (toU 2 i)
  | .uint16 n => alignPad 2 off ++ natLE 2 n
  | .int32 i => alignPad 4 off ++ natLE 4 (toU 4 i)
  | .uint32 n => alignPad 4 off ++ natLE 4 n
  | .int64 i => alignPad 8 off ++ natLE 8 (toU 8 i)
  | .uint64 n => alignPad 8 off ++ natLE 8 n
  | .double bits => alignPad 8 off ++ natLE 8 bits
  | .string s => alignPad 4 off ++ natLE 4 s.length ++ s ++ [0]
  | .objectPath s => alignPad 4 off ++ natLE 4 s.length ++ s ++ [0]
  | .signatureV s => s.length :: (s ++ [0])
  | .array t es =>
      let o4 := alignOff 4 off
      let bo := alignOff t.alignment (o4 + 4)
      let body := marshalList bo es
      alignPad 4 off ++ natLE 4 body.length ++ alignPad t.alignment (o4 + 4) ++ body
  | .structV fs => alignPad 8 off ++ marshalList (alignOff 8 off) fs
  | .dictEntry k v =>
      let o := alignOff 8 off
      let bk := marshalValue o k
      alignPad 8 off ++ bk ++ marshalValue (o + bk.length) v
  | .variant v =>
      let sb := sigCodes (typeOfV v)
      sb.length :: (sb ++ [0] ++ marshalValue (off + 1 + sb.length + 1) v)

/-- Bytes of a value sequence encoded consecutively from offset `off`. -/
def marshalList (off : Nat) : List DValue → List Nat
  | [] => []
  | v :: vs =>
      let b := marshalValue off v
      b ++ marshalList (off + b.length) vs
end

/-! ### Well-formedness, size bound and fuel -/

/-- All entries are genuine bytes. -/
def strBytes (s : List Nat) : Prop := ∀ b ∈ s, b < 256

mutual
/-- Well-formed types: no empty struct (spec §4.1: "Struct of zero members
is invalid per the type-signature grammar"). -/
def tWF : DType → Prop
  | .array t => tWF t
  | .structT ts => ts ≠ [] ∧ tWFL ts
  | .dictEntry k v => tWF k ∧ tWF v
  | _ => True

/-- Well-formed type sequences. -/
def tWFL : List DType → Prop
  | [] => True
  | t :: ts => tWF t ∧ tWFL ts
end

mutual
/-- Well-formed values: scalars within their ranges, string-like payloads
made of bytes, array elements all of the declared element type, no empty
struct, variants with a one-byte-length signature. -/
def wfV : DValue → Prop
  | .byte b => b < 256
  | .boolean _ => True
  | .int16 i => -((256 : Int) ^ 2 / 2) ≤ i ∧ i < (256 : Int) ^ 2 / 2
  | .uint16 n => n < 256 ^ 2
  | .int32 i => -((256 : Int) ^ 4 / 2) ≤ i ∧ i < (256 : Int) ^ 4 / 2
  | .uint32 n => n < 256 ^ 4
  | .int64 i => -((256 : Int) ^ 8 / 2) ≤ i ∧ i < (256 : Int) ^ 8 / 2
  | .uint64 n => n < 256 ^ 8
  | .double bits => bits < 256 ^ 8
  | .string s => strBytes s
  | .objectPath s => strBytes s
  | .signatureV s => s.length < 256 ∧ strBytes s
  | .array t es => tWF t ∧ (∀ e ∈ es, typeOfV e = t) ∧ wfL es
  | .structV fs => fs ≠ [] ∧ wfL fs
  | .dictEntry k v => wfV k ∧ wfV v
  | .variant v => wfV v ∧ tWF (typeOfV v) ∧ (sigCodes (typeOfV v)).length < 256

/-- Well-formed value lists. -/
def wfL : List DValue → Prop
  | [] => True
  | v :: vs => wfV v ∧ wfL vs
end

mutual
/-- Upper bound on the encoded size of a value, at any offset. -/
def maxEnc : DValue → Nat
  | .byte _ => 1
  | .boolean _ => 7
  | .int16 _ => 3
  | .uint16 _ => 3
  | .int32 _ => 7
  | .uint32 _ => 7
  | .int64 _ => 15
  | .uint64 _ => 15
  | .double _ => 15
  | .string s => 8 + s.length
  | .objectPath s => 8 + s.length
  | .signatureV s => 2 + s.length
  | .array _ es => 14 + maxEncL es
  | .structV fs => 7 + maxEncL fs
  | .dictEntry k v => 7 + maxEnc k + maxEnc v
  | .variant v => 2 + (sigCodes (typeOfV v)).length + maxEnc v

/-- Upper bound on the encoded size of a value list, at any offset. -/
def maxEncL : List DValue → Nat
  | [] => 0
  | v :: vs => maxEnc v + maxEncL vs
end

mutual
/-- Fuel sufficient to parse this type's signature. -/
def tfuel : DType → Nat
  | .array t => 1 + tfuel t
  | .structT ts => 1 + tmfuel ts
  | .dictEntry k v => 1 + tfuel k + tfuel v
  | _ => 1

/-- Fuel sufficient to parse this type sequence (up to the closing paren). -/
def tmfuel : List DType → Nat
  | [] => 1
  | t :: ts => 1 + tfuel t + tmfuel ts
end

mutual
/-- Fuel sufficient to decode this value. -/
def vfuel : DValue → Nat
  | .array _ es => 1 + lfuel es
  | .structV fs => 1 + lfuel fs
  | .dictEntry k v => 1 + vfuel k + vfuel v
  | .variant v => 1 + tfuel (typeOfV v) + vfuel v
  | _ => 1

/-- Fuel sufficient to decode this value list. -/
def lfuel : List DValue → Nat
  | [] => 1
  | v :: vs => 1 + vfuel v + lfuel vs
end

/-! ### Signature parser (spec §4.1: decoding rejects unknown type codes and
unterminated containers; empty structs are rejected at signature-parse
time) -/

mutual
/-- Parse one complete type from the front of a signature, returning it with
the remaining bytes; fuel-indexed to bound the recursion. -/
def parseSigOne : Nat → List Nat → Option (DType × List Nat)
  | 0, _ => none
  | _ + 1, [] => none
  | fuel + 1, c :: rest =>
      if c = 121 then some (.byte, rest)
      else if c = 98 then some (.boolean, rest)
      else if c = 110 then some (.int16, rest)
      else if c = 113 then some (.uint16, rest)
      else if c = 105 then some (.int32, rest)
      else if c = 117 then some (.uint32, rest)
      else if c = 120 then some (.int64, rest)
      else if c = 116 then some (.uint64, rest)
      else if c = 100 then some (.double, rest)
      else if c = 115 then some (.string, rest)
      else if c = 111 then some (.objectPath, rest)
      else if c = 103 then some (.signatureT, rest)
      else if c = 118 then some (.variant, rest)
      else if c = 97 then
        match parseSigOne fuel rest with
        | some (t, r) => some (.array t, r)
        | none => none
      else if c = 40 then
        match parseSigMany fuel rest with
        | some (ts, r) => if ts.isEmpty then none else some (.structT ts, r)
        | none => none
      else if c = 123 then
        match parseSigOne fuel rest with
        | some (k, r1) =>
            match parseSigOne fuel r1 with
            | some (v, r2) =>
                match r2 with
                | 125 :: r3 => some (.dictEntry k v, r3)
                | _ => none
            | none => none
        | none => none
      else none

/-- Parse types until the closing paren code 41. -/
def parseSigMany : Nat → List Nat → Option (List DType × List Nat)
  | 0, _ => none
  | _ + 1, [] => none
  | fuel + 1, c :: rest =>
      if c = 41 then some ([], rest)
      else
        match parseSigOne fuel (c :: rest) with
        | some (t, r1) =>
            match parseSigMany fuel r1 with
            | some (ts, r2) => some (t :: ts, r2)
            | none => none
        | none => none
end

/-! ### Decoder (modelled from spec §4.1's decoding contract) -/

mutual
/-- Decode one value of type `t` from `bytes` at offset `off`: skip padding
to the type's alignment, then read the value; returns the value and the
offset one past it. Fuel-indexed to bound the recursion. -/
def unmarshalValue : Nat → DType → List Nat → Nat → Option (DValue × Nat)
  | 0, _, _, _ => none
  | fuel + 1, t, bytes, off =>
      match t with
      | .byte =>
          match readByte bytes off with
          | some b => some (.byte b, off + 1)
          | none => none
      | .boolean =>
          match readChunk bytes (alignOff 4 off) 4 with
          | some c => some (.boolean (leVal c ≠ 0 : Bool), alignOff 4 off + 4)
          | none => none
      | .int16 =>
          match readChunk bytes (alignOff 2 off) 2 with
          | some c => some (.int16 (fromU 2 (leVal c)), alignOff 2 off + 2)
          | none => none
      | .uint16 =>
          match readChunk bytes (alignOff 2 off) 2 with
          | some c => some (.uint16 (leVal c), alignOff 2 off + 2)
          | none => none
      | .int32 =>
          match readChunk bytes (alignOff 4 off) 4 with
          | some c => some (.int32 (fromU 4 (leVal c)), alignOff 4 off + 4)
          | none => none
      | .uint32 =>
          match readChunk bytes (alignOff 4 off) 4 with
          | some c => some (.uint32 (leVal c), alignOff 4 off + 4)
          | none => none
      | .int64 =>
          match readChunk bytes (alignOff 8 off) 8 with
          | some c => some (.int64 (fromU 8 (leVal c)), alignOff 8 off + 8)
          | none => none
      | .uint64 =>
          match readChunk bytes (alignOff 8 off) 8 with
          | some c => some (.uint64 (leVal c), alignOff 8 off + 8)
          | none => none
      | .double =>
          match readChunk bytes (alignOff 8 off) 8 with
          | some c => some (.double (leVal c), alignOff 8 off + 8)
          | none => none
      | .string =>
          match readChunk bytes (alignOff 4 off) 4 with
          | some c =>
              match readChunk bytes (alignOff 4 off + 4) (leVal c) with
              | some s =>
                  match readByte bytes (alignOff 4 off + 4 + leVal c) with
                  | some _ => some (.string s, alignOff 4 off + 4 + leVal c + 1)
                  | none => none
              | none => none
          | none => none
      | .objectPath =>
          match readChunk bytes (alignOff 4 off) 4 with
          | some c =>
              match readChunk bytes (alignOff 4 off + 4) (leVal c) with
              | some s =>
                  match readByte bytes (alignOff 4 off + 4 + leVal c) with
                  | some _ => some (.objectPath s, alignOff 4 off + 4 + leVal c + 1)
                  | none => none
              | none => none
          | none => none
      | .signatureT =>
          match readByte bytes off with
          | some l =>
              match readChunk bytes (off + 1) l with
              | some s =>
                  match readByte bytes (off + 1 + l) with
                  | some _ => some (.signatureV s, off + 1 + l + 1)
                  | none => none
              | none => none
          | none => none
      | .array et =>
          match readChunk bytes (alignOff 4 off) 4 with
          | some c =>
              let bo := alignOff et.alignment (alignOff 4 off + 4)
              match unmarshalArrayElems fuel et bytes bo (bo + leVal c) with
              | some (es, e) => some (.array et es, e)
              | none => none
          | none => none
      | .structT ts =>
          match unmarshalFields fuel ts bytes (alignOff 8 off) with
          | some (vs, e) => some (.structV vs, e)
          | none => none
      | .dictEntry kt vt =>
          match unmarshalValue fuel kt bytes (alignOff 8 off) with
          | some (kv, e1) =>
              match unmarshalValue fuel vt bytes e1 with
              | some (vv, e2) => some (.dictEntry kv vv, e2)
              | none => none
          | none => none
      | .variant =>
          match readByte bytes off with
          | some l =>
              match readChunk bytes (off + 1) l with
              | some sb =>
                  match readByte bytes (off + 1 + l) with
                  | some _ =>
                      match parseSigOne fuel sb with
                      | some (t', []) =>
                          match unmarshalValue fuel t' bytes (off + 1 + l + 1) with
                          | some (v, e) => some (.variant v, e)
                          | none => none
                      | _ => none
                  | none => none
              | none => none
          | none => none

/-- Decode a sequence of values of the given types, consecutively. -/
def unmarshalFields : Nat → List DType → List Nat → Nat → Option (List DValue × Nat)
  | 0, _, _, _ => none
  | _ + 1, [], _, off => some ([], off)
  | fuel + 1, t :: ts, bytes, off =>
      match unmarshalValue fuel t bytes off with
      | some (v, o1) =>
          match unmarshalFields fuel ts bytes o1 with
          | some (vs, o2) => some (v :: vs, o2)
          | none => none
      | none => none

/-- Decode array elements of type `t` until the offset reaches `endOff`
exactly; overshooting means the declared length was wrong. -/
def unmarshalArrayElems : Nat → DType → List Nat → Nat → Nat → Option (List DValue × Nat)
  | 0, _, _, _, _ => none
  | fuel + 1, t, bytes, off, endOff =>
      if off = endOff then some ([], off)
      else if endOff < off then none
      else
        match unmarshalValue fuel t bytes off with
        | some (v, o1) =>
            match unmarshalArrayElems fuel t bytes o1 endOff with
            | some (vs, o2) => some (v :: vs, o2)
            | none => none
        | none => none
end

/-! ### Supporting lemmas for the round-trip proof -/

theorem padAmt_lt (a off : Nat) (ha : 0 < a) : padAmt a off < a := Nat.mod_lt _ ha

theorem alignment_pos (t : DType) : 0 < t.alignment := by
  cases t <;> simp [DType.alignment]

theorem alignment_le8 (t : DType) : t.alignment ≤ 8 := by
  cases t <;> simp [DType.alignment]

theorem toU_lt (w : Nat) (i : Int) : toU w i < 256 ^ w := by
  unfold toU
  have hpos : (0 : Int) < (256 : Int) ^ w := by positivity
  have h : i % ((256 : Int) ^ w) < (256 : Int) ^ w := Int.emod_lt_of_pos i hpos
  have h0 : (0 : Int) ≤ i % ((256 : Int) ^ w) := Int.emod_nonneg i (by positivity)
  have hcast : ((256 ^ w : Nat) : Int) = (256 : Int) ^ w := by push_cast; rfl
  omega

theorem vfuel_pos (v : DValue) : 1 ≤ vfuel v := by
  cases v <;> simp [vfuel] <;> omega

theorem lfuel_pos (vs : List DValue) : 1 ≤ lfuel vs := by
  cases vs <;> simp [lfuel] <;> omega

theorem tfuel_pos (t : DType) : 1 ≤ tfuel t := by
  cases t <;> simp [tfuel] <;> omega

/-- Reading back a fixed-size chunk written right after alignment padding. -/
theorem decode_fixed (pre suf mid : List Nat) (a w : Nat) (hw : mid.length = w) :
    readChunk (pre ++ (alignPad a pre.length ++ mid) ++ suf)
      (alignOff a pre.length) w = some mid := by
  have hbuf : pre ++ (alignPad a pre.length ++ mid) ++ suf
      = (pre ++ alignPad a pre.length) ++ mid ++ suf := by simp
  rw [hbuf]
  exact readChunk_append _ _ _ _ _ (by simp [alignOff, length_alignPad]) hw

theorem maxEncL_mem_le (es : List DValue) (e : DValue) (he : e ∈ es) :
    maxEnc e ≤ maxEncL es := by
  induction es with
  | nil => cases he
  | cons v vs ih =>
    rcases List.mem_cons.mp he with h | h
    · subst h; simp [maxEncL]
    · have := ih h
      simp [maxEncL]
      omega

/-- The first byte of any signature is never the closing-paren code 41. -/
theorem sigCodes_head (t : DType) :
    ∃ c cs, sigCodes t = c :: cs ∧ c ≠ 41 := by
  cases t <;> simp [sigCodes]

theorem encLen_strong (n : Nat) :
    (∀ v : DValue, sizeOf v ≤ n → ∀ off, (marshalValue off v).length ≤ maxEnc v) ∧
    (∀ vs : List DValue, sizeOf vs ≤ n → ∀ off,
      (marshalList off vs).length ≤ maxEncL vs) := by
  induction n using Nat.strong_induction_on with
  | _ n ih =>
    constructor
    · intro v hv off
      cases v with
      | byte b => simp [marshalValue, maxEnc]
      | boolean b =>
        have h := padAmt_lt 4 off (by norm_num)
        simp [marshalValue, maxEnc, length_alignPad, length_natLE]
        omega
      | int16 i =>
        have h := padAmt_lt 2 off (by norm_num)
        simp [marshalValue, maxEnc, length_alignPad, length_natLE]
        omega
      | uint16 m =>
        have h := padAmt_lt 2 off (by norm_num)
        simp [marshalValue, maxEnc, length_alignPad, length_natLE]
        omega
      | int32 i =>
        have h := padAmt_lt 4 off (by norm_num)
        simp [marshalValue, maxEnc, length_alignPad, length_natLE]
        omega
      | uint32 m =>
        have h := padAmt_lt 4 off (by norm_num)
        simp [marshalValue, maxEnc, length_alignPad, length_natLE]
        omega
      | int64 i =>
        have h := padAmt_lt 8 off (by norm_num)
        simp [marshalValue, maxEnc, length_alignPad, length_natLE]
        omega
      | uint64 m =>
        have h := padAmt_lt 8 off (by norm_num)
        simp [marshalValue, maxEnc, length_alignPad, length_natLE]
        omega
      | double bits =>
        have h := padAmt_lt 8 off (by norm_num)
        simp [marshalValue, maxEnc, length_alignPad, length_natLE]
        omega
      | string s =>
        have h := padAmt_lt 4 off (by norm_num)
        simp [marshalValue, maxEnc, length_alignPad, length_natLE]
        omega
      | objectPath s =>
        have h := padAmt_lt 4 off (by norm_num)
        simp [marshalValue, maxEnc, length_alignPad, length_natLE]
        omega
      | signatureV s =>
        simp [marshalValue, maxEnc]
        omega
      | array t es =>
        have h1 := padAmt_lt 4 off (by norm_num)
        have h2 := padAmt_lt t.alignment (alignOff 4 off + 4) (alignment_pos t)
        have h3 := alignment_le8 t
        have hsz : sizeOf es < n := by
          have hlt : sizeOf es < sizeOf (DValue.array t es) := by
            simp_arith
          omega
        have hb := (ih (sizeOf es) hsz).2 es (le_refl _)
          (alignOff t.alignment (alignOff 4 off + 4))
        simp [marshalValue, maxEnc, length_alignPad, length_natLE]
        omega
      | structV fs =>
        have h1 := padAmt_lt 8 off (by norm_num)
        have hsz : sizeOf fs < n := by
          have hlt : sizeOf fs < sizeOf (DValue.structV fs) := by
            simp_arith
          omega
        have hb := (ih (sizeOf fs) hsz).2 fs (le_refl _) (alignOff 8 off)
        simp [marshalValue, maxEnc, length_alignPad]
        omega
      | dictEntry k v =>
        have h1 := padAmt_lt 8 off (by norm_num)
        have hszk : sizeOf k < n := by
          have hlt : sizeOf k < sizeOf (DValue.dictEntry k v) := by
            simp_arith
          omega
        have hszv : sizeOf v < n := by
          have hlt : sizeOf v < sizeOf (DValue.dictEntry k v) := by
            simp_arith
          omega
        have hbk := (ih (sizeOf k) hszk).1 k (le_refl _) (alignOff 8 off)
        have hbv := (ih (sizeOf v) hszv).1 v (le_refl _)
          (alignOff 8 off + (marshalValue (alignOff 8 off) k).length)
        simp [marshalValue, maxEnc, length_alignPad]
        omega
      | variant v =>
        have hsz : sizeOf v < n := by
          have hlt : sizeOf v < sizeOf (DValue.variant v) := by
            simp_arith
          omega
        have hb := (ih (sizeOf v) hsz).1 v (le_refl _)
          (off + 1 + (sigCodes (typeOfV v)).length + 1)
        simp [marshalValue, maxEnc]
        omega
    · intro vs hvs off
      cases vs with
      | nil => simp [marshalList, maxEncL]
      | cons v vs =>
        have hszv : sizeOf v < n := by
          have hlt : sizeOf v < sizeOf (v :: vs) := by
            simp_arith
          omega
        have hszvs : sizeOf vs < n := by
          have hlt : sizeOf vs < sizeOf (v :: vs) := by
            simp_arith
          omega
        have hbv := (ih (sizeOf v) hszv).1 v (le_refl _) off
        have hbvs := (ih (sizeOf vs) hszvs).2 vs (le_refl _)
          (off + (marshalValue off v).length)
        simp [marshalList, maxEncL]
        omega

theorem encLen_le (v : DValue) (off : Nat) :
    (marshalValue off v).length ≤ maxEnc v :=
  (encLen_strong (sizeOf v)).1 v (le_refl _) off

theorem encLenL_le (vs : List DValue) (off : Nat) :
    (marshalList off vs).length ≤ maxEncL vs :=
  (encLen_strong (sizeOf vs)).2 vs (le_refl _) off

theorem encLen_pos_strong (n : Nat) :
    ∀ v : DValue, sizeOf v ≤ n → wfV v → ∀ off, 0 < (marshalValue off v).length := by
  induction n using Nat.strong_induction_on with
  | _ n ih =>
    intro v hv hwf off
    cases v with
    | byte b => simp [marshalValue]
    | boolean b => simp [marshalValue, length_natLE]
    | int16 i => simp [marshalValue, length_natLE]
    | uint16 m => simp [marshalValue, length_natLE]
    | int32 i => simp [marshalValue, length_natLE]
    | uint32 m => simp [marshalValue, length_natLE]
    | int64 i => simp [marshalValue, length_natLE]
    | uint64 m => simp [marshalValue, length_natLE]
    | double bits => simp [marshalValue, length_natLE]
    | string s => simp [marshalValue, length_natLE]
    | objectPath s => simp [marshalValue, length_natLE]
    | signatureV s => simp [marshalValue]
    | array t es => simp [marshalValue, length_natLE]
    | structV fs =>
      cases fs with
      | nil =>
        simp [wfV] at hwf
      | cons f rest =>
        have hwff : wfV f := by
          simp [wfV, wfL] at hwf
          exact hwf.1
        have hsz : sizeOf f < n := by
          have hlt : sizeOf f < sizeOf (DValue.structV (f :: rest)) := by
            simp_arith
          omega
        have hf := ih (sizeOf f) hsz f (le_refl _) hwff (alignOff 8 off)
        simp [marshalValue, marshalList]
        omega
    | dictEntry k v =>
      have hwfk : wfV k := by
        simp [wfV] at hwf
        exact hwf.1
      have hsz : sizeOf k < n := by
        have hlt : sizeOf k < sizeOf (DValue.dictEntry k v) := by
          simp_arith
        omega
      have hk := ih (sizeOf k) hsz k (le_refl _) hwfk (alignOff 8 off)
      simp [marshalValue]
      omega
    | variant v => simp [marshalValue]

theorem encLen_pos (v : DValue) (hwf : wfV v) (off : Nat) :
    0 < (marshalValue off v).length :=
  encLen_pos_strong (sizeOf v) v (le_refl _) hwf off

theorem parseSig_rt_strong (n : Nat) :
    (∀ t : DType, sizeOf t ≤ n → tWF t → ∀ fuel, tfuel t ≤ fuel → ∀ rest,
      parseSigOne fuel (sigCodes t ++ rest) = some (t, rest)) ∧
    (∀ ts : List DType, sizeOf ts ≤ n → tWFL ts → ∀ fuel, tmfuel ts ≤ fuel → ∀ rest,
      parseSigMany fuel (sigCodesL ts ++ 41 :: rest) = some (ts, rest)) := by
  induction n using Nat.strong_induction_on with
  | _ n ih =>
    constructor
    · intro t hsz htw fuel hfuel rest
      obtain ⟨f, rfl⟩ : ∃ f, fuel = f + 1 :=
        ⟨fuel - 1, by have := tfuel_pos t; omega⟩
      cases t with
      | byte => simp [sigCodes, parseSigOne]
      | boolean => simp [sigCodes, parseSigOne]
      | int16 => simp [sigCodes, parseSigOne]
      | uint16 => simp [sigCodes, parseSigOne]
      | int32 => simp [sigCodes, parseSigOne]
      | uint32 => simp [sigCodes, parseSigOne]
      | int64 => simp [sigCodes, parseSigOne]
      | uint64 => simp [sigCodes, parseSigOne]
      | double => simp [sigCodes, parseSigOne]
      | string => simp [sigCodes, parseSigOne]
      | objectPath => simp [sigCodes, parseSigOne]
      | signatureT => simp [sigCodes, parseSigOne]
      | variant => simp [sigCodes, parseSigOne]
      | array t =>
        have hszt : sizeOf t < n := by
          have hlt : sizeOf t < sizeOf (DType.array t) := by
            simp_arith
          omega
        have htw' : tWF t := by
          simpa [tWF] using htw
        have hf : tfuel t ≤ f := by
          simp [tfuel] at hfuel
          omega
        have hone := (ih (sizeOf t) hszt).1 t (le_refl _) htw' f hf rest
        simp [sigCodes, parseSigOne, hone]
      | structT ts =>
        have hszts : sizeOf ts < n := by
          have hlt : sizeOf ts < sizeOf (DType.structT ts) := by
            simp_arith
          omega
        have htw' : ts ≠ [] ∧ tWFL ts := by
          simpa [tWF] using htw
        have hf : tmfuel ts ≤ f := by
          simp [tfuel] at hfuel
          omega
        have hmany := (ih (sizeOf ts) hszts).2 ts (le_refl _) htw'.2 f hf rest
        have hassoc : sigCodes (DType.structT ts) ++ rest
            = 40 :: (sigCodesL ts ++ 41 :: rest) := by
          simp [sigCodes]
        rw [hassoc]
        simp [parseSigOne, hmany, htw'.1]
      | dictEntry k v =>
        have hszk : sizeOf k < n := by
          have hlt : sizeOf k < sizeOf (DType.dictEntry k v) := by
            simp_arith
          omega
        have hszv : sizeOf v < n := by
          have hlt : sizeOf v < sizeOf (DType.dictEntry k v) := by
            simp_arith
          omega
        have htw' : tWF k ∧ tWF v := by
          simpa [tWF] using htw
        have hfk : tfuel k ≤ f := by
          simp [tfuel] at hfuel
          omega
        have hfv : tfuel v ≤ f := by
          simp [tfuel] at hfuel
          omega
        have hk := (ih (sizeOf k) hszk).1 k (le_refl _) htw'.1 f hfk
          (sigCodes v ++ 125 :: rest)
        have hv := (ih (sizeOf v) hszv).1 v (le_refl _) htw'.2 f hfv (125 :: rest)
        have hassoc : sigCodes (DType.dictEntry k v) ++ rest
            = 123 :: (sigCodes k ++ (sigCodes v ++ 125 :: rest)) := by
          simp [sigCodes]
        rw [hassoc]
        simp [parseSigOne, hk, hv]
    · intro ts hsz htw fuel hfuel rest
      obtain ⟨f, rfl⟩ : ∃ f, fuel = f + 1 :=
        ⟨fuel - 1, by cases ts <;> simp [tmfuel] at hfuel <;> omega⟩
      cases ts with
      | nil => simp [sigCodesL, parseSigMany]
      | cons t ts =>
        have hszt : sizeOf t < n := by
          have hlt : sizeOf t < sizeOf (t :: ts) := by
            simp_arith
          omega
        have hszts : sizeOf ts < n := by
          have hlt : sizeOf ts < sizeOf (t :: ts) := by
            simp_arith
          omega
        have htw' : tWF t ∧ tWFL ts := by
          simpa [tWFL] using htw
        have hft : tfuel t ≤ f := by
          simp [tmfuel] at hfuel
          omega
        have hfts : tmfuel ts ≤ f := by
          simp [tmfuel] at hfuel
          omega
        obtain ⟨c, cs, hcs, hc41⟩ := sigCodes_head t
        have hone := (ih (sizeOf t) hszt).1 t (le_refl _) htw'.1 f hft
          (sigCodesL ts ++ 41 :: rest)
        have hmany := (ih (sizeOf ts) hszts).2 ts (le_refl _) htw'.2 f hfts rest
        have hassoc : sigCodesL (t :: ts) ++ 41 :: rest
            = c :: (cs ++ (sigCodesL ts ++ 41 :: rest)) := by
          simp [sigCodesL, hcs]
        rw [hassoc]
        rw [hcs, List.cons_append] at hone
        simp only [parseSigMany, if_neg hc41, hone, hmany]

theorem parseSig_rt (t : DType) (htw : tWF t) (fuel : Nat) (hfuel : tfuel t ≤ fuel)
    (rest : List Nat) : parseSigOne fuel (sigCodes t ++ rest) = some (t, rest) :=
  (parseSig_rt_strong (sizeOf t)).1 t (le_refl _) htw fuel hfuel rest


/-! ### The message-body codec round trip (C8) -/


set_option maxHeartbeats 1000000

theorem marshal_rt_strong (n : Nat) :
    (∀ v : DValue, sizeOf v ≤ n → wfV v → maxEnc v < 2 ^ 32 →
      ∀ fuel, vfuel v ≤ fuel → ∀ pre suf : List Nat,
        unmarshalValue fuel (typeOfV v) (pre ++ marshalValue pre.length v ++ suf)
          pre.length = some (v, pre.length + (marshalValue pre.length v).length)) ∧
    (∀ vs : List DValue, sizeOf vs ≤ n → wfL vs → maxEncL vs < 2 ^ 32 →
      ∀ fuel, lfuel vs ≤ fuel → ∀ pre suf : List Nat,
        (unmarshalFields fuel (typeOfL vs) (pre ++ marshalList pre.length vs ++ suf)
          pre.length = some (vs, pre.length + (marshalList pre.length vs).length)) ∧
        (∀ t : DType, (∀ e ∈ vs, typeOfV e = t) →
          unmarshalArrayElems fuel t (pre ++ marshalList pre.length vs ++ suf)
            pre.length (pre.length + (marshalList pre.length vs).length)
            = some (vs, pre.length + (marshalList pre.length vs).length))) := by
  induction n using Nat.strong_induction_on with
  | _ n ih =>
    constructor
    · intro v hsz hwf hbound fuel hfuel pre suf
      obtain ⟨f, rfl⟩ : ∃ f, fuel = f + 1 :=
        ⟨fuel - 1, by have := vfuel_pos v; omega⟩
      cases v with
      | byte b =>
        have hr : readByte (pre ++ marshalValue pre.length (DValue.byte b) ++ suf)
            pre.length = some b := by
          simp only [marshalValue]
          have hbuf : pre ++ [b] ++ suf = pre ++ b :: suf := by simp
          rw [hbuf]
          exact readByte_append pre b suf pre.length rfl
        simp only [typeOfV, unmarshalValue]
        rw [hr]
        simp [marshalValue]
      | boolean b =>
        have hr : readChunk (pre ++ marshalValue pre.length (DValue.boolean b) ++ suf)
            (alignOff 4 pre.length) 4 = some (natLE 4 (if b then 1 else 0)) := by
          simp only [marshalValue]
          exact decode_fixed pre suf _ 4 4 (length_natLE _ _)
        have hm : (if b then 1 else 0) < 256 ^ 4 := by cases b <;> norm_num
        simp only [typeOfV, unmarshalValue]
        rw [hr]
        cases b <;>
          simp_arith [leVal_natLE_of_lt 4 _ hm, marshalValue, alignOff,
            length_alignPad, length_natLE]
      | int16 i =>
        have hw : -((256 : Int) ^ 2 / 2) ≤ i ∧ i < (256 : Int) ^ 2 / 2 := by
          simpa [wfV] using hwf
        have hr : readChunk (pre ++ marshalValue pre.length (DValue.int16 i) ++ suf)
            (alignOff 2 pre.length) 2 = some (natLE 2 (toU 2 i)) := by
          simp only [marshalValue]
          exact decode_fixed pre suf _ 2 2 (length_natLE _ _)
        simp only [typeOfV, unmarshalValue]
        rw [hr]
        simp_arith [leVal_natLE_of_lt 2 _ (toU_lt 2 i),
          fromU_toU 2 i (by norm_num) hw.1 hw.2, marshalValue, alignOff,
          length_alignPad, length_natLE]
      | uint16 m =>
        have hm : m < 256 ^ 2 := by simpa [wfV] using hwf
        have hr : readChunk (pre ++ marshalValue pre.length (DValue.uint16 m) ++ suf)
            (alignOff 2 pre.length) 2 = some (natLE 2 m) := by
          simp only [marshalValue]
          exact decode_fixed pre suf _ 2 2 (length_natLE _ _)
        simp only [typeOfV, unmarshalValue]
        rw [hr]
        simp_arith [leVal_natLE_of_lt 2 m hm, marshalValue, alignOff,
          length_alignPad, length_natLE]
      | int32 i =>
        have hw : -((256 : Int) ^ 4 / 2) ≤ i ∧ i < (256 : Int) ^ 4 / 2 := by
          simpa [wfV] using hwf
        have hr : readChunk (pre ++ marshalValue pre.length (DValue.int32 i) ++ suf)
            (alignOff 4 pre.length) 4 = some (natLE 4 (toU 4 i)) := by
          simp only [marshalValue]
          exact decode_fixed pre suf _ 4 4 (length_natLE _ _)
        simp only [typeOfV, unmarshalValue]
        rw [hr]
        simp_arith [leVal_natLE_of_lt 4 _ (toU_lt 4 i),
          fromU_toU 4 i (by norm_num) hw.1 hw.2, marshalValue, alignOff,
          length_alignPad, length_natLE]
      | uint32 m =>
        have hm : m < 256 ^ 4 := by simpa [wfV] using hwf
        have hr : readChunk (pre ++ marshalValue pre.length (DValue.uint32 m) ++ suf)
            (alignOff 4 pre.length) 4 = some (natLE 4 m) := by
          simp only [marshalValue]
          exact decode_fixed pre suf _ 4 4 (length_natLE _ _)
        simp only [typeOfV, unmarshalValue]
        rw [hr]
        simp_arith [leVal_natLE_of_lt 4 m hm, marshalValue, alignOff,
          length_alignPad, length_natLE]
      | int64 i =>
        have hw : -((256 : Int) ^ 8 / 2) ≤ i ∧ i < (256 : Int) ^ 8 / 2 := by
          simpa [wfV] using hwf
        have hr : readChunk (pre ++ marshalValue pre.length (DValue.int64 i) ++ suf)
            (alignOff 8 pre.length) 8 = some (natLE 8 (toU 8 i)) := by
          simp only [marshalValue]
          exact decode_fixed pre suf _ 8 8 (length_natLE _ _)
        simp only [typeOfV, unmarshalValue]
        rw [hr]
        simp_arith [leVal_natLE_of_lt 8 _ (toU_lt 8 i),
          fromU_toU 8 i (by norm_num) hw.1 hw.2, marshalValue, alignOff,
          length_alignPad, length_natLE]
      | uint64 m =>
        have hm : m < 256 ^ 8 := by simpa [wfV] using hwf
        have hr : readChunk (pre ++ marshalValue pre.length (DValue.uint64 m) ++ suf)
            (alignOff 8 pre.length) 8 = some (natLE 8 m) := by
          simp only [marshalValue]
          exact decode_fixed pre suf _ 8 8 (length_natLE _ _)
        simp only [typeOfV, unmarshalValue]
        rw [hr]
        simp_arith [leVal_natLE_of_lt 8 m hm, marshalValue, alignOff,
          length_alignPad, length_natLE]
      | double bits =>
        have hm : bits < 256 ^ 8 := by simpa [wfV] using hwf
        have hr : readChunk (pre ++ marshalValue pre.length (DValue.double bits) ++ suf)
            (alignOff 8 pre.length) 8 = some (natLE 8 bits) := by
          simp only [marshalValue]
          exact decode_fixed pre suf _ 8 8 (length_natLE _ _)
        simp only [typeOfV, unmarshalValue]
        rw [hr]
        simp_arith [leVal_natLE_of_lt 8 bits hm, marshalValue, alignOff,
          length_alignPad, length_natLE]
      | string s =>
        have hslen : s.length < 2 ^ 32 := by
          have hm : maxEnc (DValue.string s) = 8 + s.length := by simp [maxEnc]
          omega
        have hr1 : readChunk (pre ++ marshalValue pre.length (DValue.string s) ++ suf)
            (alignOff 4 pre.length) 4 = some (natLE 4 s.length) := by
          simp only [marshalValue]
          have hbuf : pre ++ (alignPad 4 pre.length ++ natLE 4 s.length ++ s ++ [0]) ++ suf
              = (pre ++ alignPad 4 pre.length) ++ natLE 4 s.length ++ (s ++ [0] ++ suf) := by
            simp
          rw [hbuf]
          exact readChunk_append _ _ _ _ _ (by simp [alignOff, length_alignPad]) (length_natLE _ _)
        have hr2 : readChunk (pre ++ marshalValue pre.length (DValue.string s) ++ suf)
            (alignOff 4 pre.length + 4) s.length = some s := by
          simp only [marshalValue]
          have hbuf : pre ++ (alignPad 4 pre.length ++ natLE 4 s.length ++ s ++ [0]) ++ suf
              = (pre ++ alignPad 4 pre.length ++ natLE 4 s.length) ++ s ++ ([0] ++ suf) := by
            simp
          rw [hbuf]
          exact readChunk_append _ _ _ _ _
            (by simp_arith [alignOff, length_alignPad, length_natLE]) rfl
        have hr3 : readByte (pre ++ marshalValue pre.length (DValue.string s) ++ suf)
            (alignOff 4 pre.length + 4 + s.length) = some 0 := by
          simp only [marshalValue]
          have hbuf : pre ++ (alignPad 4 pre.length ++ natLE 4 s.length ++ s ++ [0]) ++ suf
              = (pre ++ alignPad 4 pre.length ++ natLE 4 s.length ++ s) ++ 0 :: suf := by
            simp
          rw [hbuf]
          exact readByte_append _ _ _ _
            (by simp_arith [alignOff, length_alignPad, length_natLE])
        simp only [typeOfV, unmarshalValue]
        rw [hr1]
        simp only [leVal_natLE_of_lt 4 s.length hslen]
        rw [hr2, hr3]
        simp_arith [marshalValue, alignOff, length_alignPad, length_natLE]
      | objectPath s =>
        have hslen : s.length < 2 ^ 32 := by
          have hm : maxEnc (DValue.objectPath s) = 8 + s.length := by simp [maxEnc]
          omega
        have hr1 : readChunk (pre ++ marshalValue pre.length (DValue.objectPath s) ++ suf)
            (alignOff 4 pre.length) 4 = some (natLE 4 s.length) := by
          simp only [marshalValue]
          have hbuf : pre ++ (alignPad 4 pre.length ++ natLE 4 s.length ++ s ++ [0]) ++ suf
              = (pre ++ alignPad 4 pre.length) ++ natLE 4 s.length ++ (s ++ [0] ++ suf) := by
            simp
          rw [hbuf]
          exact readChunk_append _ _ _ _ _ (by simp [alignOff, length_alignPad]) (length_natLE _ _)
        have hr2 : readChunk (pre ++ marshalValue pre.length (DValue.objectPath s) ++ suf)
            (alignOff 4 pre.length + 4) s.length = some s := by
          simp only [marshalValue]
          have hbuf : pre ++ (alignPad 4 pre.length ++ natLE 4 s.length ++ s ++ [0]) ++ suf
              = (pre ++ alignPad 4 pre.length ++ natLE 4 s.length) ++ s ++ ([0] ++ suf) := by
            simp
          rw [hbuf]
          exact readChunk_append _ _ _ _ _
            (by simp_arith [alignOff, length_alignPad, length_natLE]) rfl
        have hr3 : readByte (pre ++ marshalValue pre.length (DValue.objectPath s) ++ suf)
            (alignOff 4 pre.length + 4 + s.length) = some 0 := by
          simp only [marshalValue]
          have hbuf : pre ++ (alignPad 4 pre.length ++ natLE 4 s.length ++ s ++ [0]) ++ suf
              = (pre ++ alignPad 4 pre.length ++ natLE 4 s.length ++ s) ++ 0 :: suf := by
            simp
          rw [hbuf]
          exact readByte_append _ _ _ _
            (by simp_arith [alignOff, length_alignPad, length_natLE])
        simp only [typeOfV, unmarshalValue]
        rw [hr1]
        simp only [leVal_natLE_of_lt 4 s.length hslen]
        rw [hr2, hr3]
        simp_arith [marshalValue, alignOff, length_alignPad, length_natLE]
      | signatureV s =>
        have hr1 : readByte (pre ++ marshalValue pre.length (DValue.signatureV s) ++ suf)
            pre.length = some s.length := by
          simp only [marshalValue]
          have hbuf : pre ++ (s.length :: (s ++ [0])) ++ suf
              = pre ++ s.length :: (s ++ [0] ++ suf) := by
            simp
          rw [hbuf]
          exact readByte_append _ _ _ _ rfl
        have hr2 : readChunk (pre ++ marshalValue pre.length (DValue.signatureV s) ++ suf)
            (pre.length + 1) s.length = some s := by
          simp only [marshalValue]
          have hbuf : pre ++ (s.length :: (s ++ [0])) ++ suf
              = (pre ++ [s.length]) ++ s ++ ([0] ++ suf) := by
            simp
          rw [hbuf]
          exact readChunk_append _ _ _ _ _ (by simp) rfl
        have hr3 : readByte (pre ++ marshalValue pre.length (DValue.signatureV s) ++ suf)
            (pre.length + 1 + s.length) = some 0 := by
          simp only [marshalValue]
          have hbuf : pre ++ (s.length :: (s ++ [0])) ++ suf
              = (pre ++ [s.length] ++ s) ++ 0 :: suf := by
            simp
          rw [hbuf]
          exact readByte_append _ _ _ _ (by simp_arith)
        simp only [typeOfV, unmarshalValue]
        rw [hr1]
        simp only [hr2, hr3]
        simp_arith [marshalValue]
      | array t es =>
        have hw : tWF t ∧ (∀ e ∈ es, typeOfV e = t) ∧ wfL es := by simpa [wfV] using hwf
        have hmax : maxEncL es < 2 ^ 32 := by
          have hm : maxEnc (DValue.array t es) = 14 + maxEncL es := by simp [maxEnc]
          omega
        have hlf : lfuel es ≤ f := by
          have hm : vfuel (DValue.array t es) = 1 + lfuel es := by simp [vfuel]
          omega
        have hszl : sizeOf es < n := by
          have hm : sizeOf es < sizeOf (DValue.array t es) := by simp_arith
          omega
        have hblt : (marshalList (alignOff t.alignment (alignOff 4 pre.length + 4)) es).length
            < 2 ^ 32 := lt_of_le_of_lt (encLenL_le es _) (by omega)
        have hr1 : readChunk (pre ++ marshalValue pre.length (DValue.array t es) ++ suf)
            (alignOff 4 pre.length) 4
            = some (natLE 4
                (marshalList (alignOff t.alignment (alignOff 4 pre.length + 4)) es).length) := by
          simp only [marshalValue]
          have hbuf : pre ++ (alignPad 4 pre.length
                ++ natLE 4 (marshalList (alignOff t.alignment (alignOff 4 pre.length + 4)) es).length
                ++ alignPad t.alignment (alignOff 4 pre.length + 4)
                ++ marshalList (alignOff t.alignment (alignOff 4 pre.length + 4)) es) ++ suf
              = (pre ++ alignPad 4 pre.length)
                ++ natLE 4 (marshalList (alignOff t.alignment (alignOff 4 pre.length + 4)) es).length
                ++ (alignPad t.alignment (alignOff 4 pre.length + 4)
                  ++ marshalList (alignOff t.alignment (alignOff 4 pre.length + 4)) es ++ suf) := by
            simp
          rw [hbuf]
          exact readChunk_append _ _ _ _ _ (by simp [alignOff, length_alignPad]) (length_natLE _ _)
        have hix := ((ih (sizeOf es) hszl).2 es (le_refl _) hw.2.2 hmax f hlf
          (pre ++ alignPad 4 pre.length
            ++ natLE 4 (marshalList (alignOff t.alignment (alignOff 4 pre.length + 4)) es).length
            ++ alignPad t.alignment (alignOff 4 pre.length + 4)) suf).2 t hw.2.1
        have hlen : (pre ++ alignPad 4 pre.length
            ++ natLE 4 (marshalList (alignOff t.alignment (alignOff 4 pre.length + 4)) es).length
            ++ alignPad t.alignment (alignOff 4 pre.length + 4)).length
            = alignOff t.alignment (alignOff 4 pre.length + 4) := by
          simp_arith [alignOff, length_alignPad, length_natLE]
        rw [hlen] at hix
        have hbufE : pre ++ marshalValue pre.length (DValue.array t es) ++ suf
            = pre ++ alignPad 4 pre.length
              ++ natLE 4 (marshalList (alignOff t.alignment (alignOff 4 pre.length + 4)) es).length
              ++ alignPad t.alignment (alignOff 4 pre.length + 4)
              ++ marshalList (alignOff t.alignment (alignOff 4 pre.length + 4)) es ++ suf := by
          simp [marshalValue]
        simp only [typeOfV, unmarshalValue]
        rw [hr1]
        simp only [leVal_natLE_of_lt 4 _ hblt]
        rw [hbufE, hix]
        simp_arith [marshalValue, alignOff, length_alignPad, length_natLE]
      | structV fs =>
        have hw : fs ≠ [] ∧ wfL fs := by simpa [wfV] using hwf
        have hmax : maxEncL fs < 2 ^ 32 := by
          have hm : maxEnc (DValue.structV fs) = 7 + maxEncL fs := by simp [maxEnc]
          omega
        have hlf : lfuel fs ≤ f := by
          have hm : vfuel (DValue.structV fs) = 1 + lfuel fs := by simp [vfuel]
          omega
        have hszl : sizeOf fs < n := by
          have hm : sizeOf fs < sizeOf (DValue.structV fs) := by simp_arith
          omega
        have hix := ((ih (sizeOf fs) hszl).2 fs (le_refl _) hw.2 hmax f hlf
          (pre ++ alignPad 8 pre.length) suf).1
        have hlen : (pre ++ alignPad 8 pre.length).length = alignOff 8 pre.length := by
          simp [alignOff, length_alignPad]
        rw [hlen] at hix
        have hbufE : pre ++ marshalValue pre.length (DValue.structV fs) ++ suf
            = (pre ++ alignPad 8 pre.length)
              ++ marshalList (alignOff 8 pre.length) fs ++ suf := by
          simp [marshalValue]
        simp only [typeOfV, unmarshalValue]
        rw [hbufE, hix]
        simp_arith [marshalValue, alignOff, length_alignPad]
      | dictEntry kv vv =>
        have hw : wfV kv ∧ wfV vv := by simpa [wfV] using hwf
        have hmax : maxEnc kv < 2 ^ 32 ∧ maxEnc vv < 2 ^ 32 := by
          have hm : maxEnc (DValue.dictEntry kv vv) = 7 + maxEnc kv + maxEnc vv := by
            simp [maxEnc]
          omega
        have hfu : vfuel kv ≤ f ∧ vfuel vv ≤ f := by
          have hm : vfuel (DValue.dictEntry kv vv) = 1 + vfuel kv + vfuel vv := by
            simp [vfuel]
          omega
        have hszk : sizeOf kv < n := by
          have hm : sizeOf kv < sizeOf (DValue.dictEntry kv vv) := by simp_arith
          omega
        have hszvv : sizeOf vv < n := by
          have hm : sizeOf vv < sizeOf (DValue.dictEntry kv vv) := by simp_arith
          omega
        have hk := (ih (sizeOf kv) hszk).1 kv (le_refl _) hw.1 hmax.1 f hfu.1
          (pre ++ alignPad 8 pre.length)
          (marshalValue (alignOff 8 pre.length
            + (marshalValue (alignOff 8 pre.length) kv).length) vv ++ suf)
        have hlen1 : (pre ++ alignPad 8 pre.length).length = alignOff 8 pre.length := by
          simp [alignOff, length_alignPad]
        rw [hlen1] at hk
        rw [← List.append_assoc] at hk
        have hv2 := (ih (sizeOf vv) hszvv).1 vv (le_refl _) hw.2 hmax.2 f hfu.2
          (pre ++ alignPad 8 pre.length ++ marshalValue (alignOff 8 pre.length) kv) suf
        have hlen2 : (pre ++ alignPad 8 pre.length
            ++ marshalValue (alignOff 8 pre.length) kv).length
            = alignOff 8 pre.length + (marshalValue (alignOff 8 pre.length) kv).length := by
          simp_arith [alignOff, length_alignPad]
        rw [hlen2] at hv2
        have hbufE : pre ++ marshalValue pre.length (DValue.dictEntry kv vv) ++ suf
            = pre ++ alignPad 8 pre.length ++ marshalValue (alignOff 8 pre.length) kv
              ++ marshalValue (alignOff 8 pre.length
                  + (marshalValue (alignOff 8 pre.length) kv).length) vv ++ suf := by
          simp [marshalValue]
        simp only [typeOfV, unmarshalValue]
        rw [hbufE, hk]
        simp only [hv2]
        simp_arith [marshalValue, alignOff, length_alignPad]
      | variant v =>
        have hw : wfV v ∧ tWF (typeOfV v) ∧ (sigCodes (typeOfV v)).length < 256 := by
          simpa [wfV] using hwf
        have hmax : maxEnc v < 2 ^ 32 := by
          have hm : maxEnc (DValue.variant v)
              = 2 + (sigCodes (typeOfV v)).length + maxEnc v := by simp [maxEnc]
          omega
        have hfu : vfuel v ≤ f ∧ tfuel (typeOfV v) ≤ f := by
          have hm : vfuel (DValue.variant v)
              = 1 + tfuel (typeOfV v) + vfuel v := by simp [vfuel]
          omega
        have hszv : sizeOf v < n := by
          have hm : sizeOf v < sizeOf (DValue.variant v) := by simp_arith
          omega
        have hr1 : readByte (pre ++ marshalValue pre.length (DValue.variant v) ++ suf)
            pre.length = some (sigCodes (typeOfV v)).length := by
          simp only [marshalValue]
          have hbuf : pre ++ ((sigCodes (typeOfV v)).length
                :: (sigCodes (typeOfV v) ++ [0]
                  ++ marshalValue (pre.length + 1 + (sigCodes (typeOfV v)).length + 1) v)) ++ suf
              = pre ++ (sigCodes (typeOfV v)).length
                :: (sigCodes (typeOfV v) ++ [0]
                  ++ marshalValue (pre.length + 1 + (sigCodes (typeOfV v)).length + 1) v ++ suf) := by
            simp
          rw [hbuf]
          exact readByte_append _ _ _ _ rfl
        have hr2 : readChunk (pre ++ marshalValue pre.length (DValue.variant v) ++ suf)
            (pre.length + 1) (sigCodes (typeOfV v)).length = some (sigCodes (typeOfV v)) := by
          simp only [marshalValue]
          have hbuf : pre ++ ((sigCodes (typeOfV v)).length
                :: (sigCodes (typeOfV v) ++ [0]
                  ++ marshalValue (pre.length + 1 + (sigCodes (typeOfV v)).length + 1) v)) ++ suf
              = (pre ++ [(sigCodes (typeOfV v)).length]) ++ sigCodes (typeOfV v)
                ++ ([0] ++ marshalValue (pre.length + 1 + (sigCodes (typeOfV v)).length + 1) v
                    ++ suf) := by
            simp
          rw [hbuf]
          exact readChunk_append _ _ _ _ _ (by simp) rfl
        have hr3 : readByte (pre ++ marshalValue pre.length (DValue.variant v) ++ suf)
            (pre.length + 1 + (sigCodes (typeOfV v)).length) = some 0 := by
          simp only [marshalValue]
          have hbuf : pre ++ ((sigCodes (typeOfV v)).length
                :: (sigCodes (typeOfV v) ++ [0]
                  ++ marshalValue (pre.length + 1 + (sigCodes (typeOfV v)).length + 1) v)) ++ suf
              = (pre ++ [(sigCodes (typeOfV v)).length] ++ sigCodes (typeOfV v))
                ++ 0 :: (marshalValue (pre.length + 1 + (sigCodes (typeOfV v)).length + 1) v
                    ++ suf) := by
            simp
          rw [hbuf]
          exact readByte_append _ _ _ _ (by simp_arith)
        have hparse : parseSigOne f (sigCodes (typeOfV v)) = some (typeOfV v, []) := by
          have h := parseSig_rt (typeOfV v) hw.2.1 f hfu.2 []
          simpa using h
        have hinner := (ih (sizeOf v) hszv).1 v (le_refl _) hw.1 hmax f hfu.1
          (pre ++ (sigCodes (typeOfV v)).length :: (sigCodes (typeOfV v) ++ [0])) suf
        have hlen : (pre ++ (sigCodes (typeOfV v)).length
            :: (sigCodes (typeOfV v) ++ [0])).length
            = pre.length + 1 + (sigCodes (typeOfV v)).length + 1 := by
          simp_arith
        rw [hlen] at hinner
        have hbufE : pre ++ marshalValue pre.length (DValue.variant v) ++ suf
            = (pre ++ (sigCodes (typeOfV v)).length :: (sigCodes (typeOfV v) ++ [0]))
              ++ marshalValue (pre.length + 1 + (sigCodes (typeOfV v)).length + 1) v ++ suf := by
          simp [marshalValue]
        simp only [typeOfV, unmarshalValue]
        rw [hr1]
        simp only [hr2, hr3, hparse]
        rw [hbufE, hinner]
        simp_arith [marshalValue]
    · intro vs hsz hwf hbound fuel hfuel pre suf
      obtain ⟨f, rfl⟩ : ∃ f, fuel = f + 1 :=
        ⟨fuel - 1, by have := lfuel_pos vs; omega⟩
      cases vs with
      | nil =>
        constructor
        · simp [typeOfL, marshalList, unmarshalFields]
        · intro t _
          simp [marshalList, unmarshalArrayElems]
      | cons v vs =>
        have hwf' : wfV v ∧ wfL vs := by simpa [wfL] using hwf
        have hmax : maxEnc v < 2 ^ 32 ∧ maxEncL vs < 2 ^ 32 := by
          have hm : maxEncL (v :: vs) = maxEnc v + maxEncL vs := by simp [maxEncL]
          omega
        have hfu : vfuel v ≤ f ∧ lfuel vs ≤ f := by
          have hm : lfuel (v :: vs) = 1 + vfuel v + lfuel vs := by simp [lfuel]
          omega
        have hszv : sizeOf v < n := by
          have hm : sizeOf v < sizeOf (v :: vs) := by simp_arith
          omega
        have hszvs : sizeOf vs < n := by
          have hm : sizeOf vs < sizeOf (v :: vs) := by simp_arith
          omega
        have hv := (ih (sizeOf v) hszv).1 v (le_refl _) hwf'.1 hmax.1 f hfu.1 pre
          (marshalList (pre.length + (marshalValue pre.length v).length) vs ++ suf)
        rw [← List.append_assoc] at hv
        have hrest := (ih (sizeOf vs) hszvs).2 vs (le_refl _) hwf'.2 hmax.2 f hfu.2
          (pre ++ marshalValue pre.length v) suf
        have hlen : (pre ++ marshalValue pre.length v).length
            = pre.length + (marshalValue pre.length v).length := by simp
        rw [hlen] at hrest
        have hbufE : pre ++ marshalList pre.length (v :: vs) ++ suf
            = pre ++ marshalValue pre.length v
              ++ marshalList (pre.length + (marshalValue pre.length v).length) vs ++ suf := by
          simp [marshalList]
        have hend : pre.length + (marshalList pre.length (v :: vs)).length
            = pre.length + (marshalValue pre.length v).length
              + (marshalList (pre.length + (marshalValue pre.length v).length) vs).length := by
          simp_arith [marshalList]
        constructor
        · simp only [typeOfL, unmarshalFields]
          rw [hbufE, hv]
          simp only [hrest.1]
          simp_arith [marshalList]
        · intro t hty
          have htv : typeOfV v = t := hty v (List.mem_cons_self v vs)
          have htvs : ∀ e ∈ vs, typeOfV e = t := fun e he => hty e (List.mem_cons_of_mem v he)
          subst htv
          have hpos := encLen_pos v hwf'.1 pre.length
          have hne : pre.length ≠ pre.length + (marshalList pre.length (v :: vs)).length := by
            omega
          have hnlt : ¬(pre.length + (marshalList pre.length (v :: vs)).length
              < pre.length) := by
            omega
          simp only [unmarshalArrayElems]
          rw [if_neg hne, if_neg hnlt, hbufE, hv]
          rw [hend]
          simp only [hrest.2 (typeOfV v) htvs]


/-- A full message body (spec §4.1): the arguments encoded consecutively from
offset 0 (the body start, after the 16-byte fixed header and padded
header-fields array), padded at the end to an 8-byte boundary — per the spec,
"message bodies are always padding-aligned to end on an 8-byte boundary
relative to body start". -/
def marshalBody (args : List DValue) : List Nat :=
  let b := marshalList 0 args
  b ++ alignPad 8 b.length

/-- Decode a full message body against its signature: the values, then the
trailing padding up to the 8-byte boundary; returns the values with the
exact consumed byte count. -/
def unmarshalBody (fuel : Nat) (ts : List DType) (bytes : List Nat) :
    Option (List DValue × Nat) :=
  match unmarshalFields fuel ts bytes 0 with
  | some (vs, off) =>
      if alignOff 8 off ≤ bytes.length then some (vs, alignOff 8 off) else none
  | none => none

/-- Claim C8: for every well-formed argument list over the supported D-Bus
types — scalars, string-likes, arrays, structs, dict entries, variants and
their nested combinations — decoding the encoding of a message body yields
the original values, and the consumed byte count (equal to the full encoded
length) is a multiple of 8 relative to the body start. Modelled from the
spec, since marshall.go is absent from src. -/
theorem claim_C8_codec_roundtrip (args : List DValue) (hwf : wfL args)
    (hbound : maxEncL args < 2 ^ 32) (fuel : Nat) (hfuel : lfuel args ≤ fuel) :
    unmarshalBody fuel (typeOfL args) (marshalBody args)
      = some (args, (marshalBody args).length) ∧
    (marshalBody args).length % 8 = 0 := by
  have h := ((marshal_rt_strong (sizeOf args)).2 args (le_refl _) hwf hbound fuel hfuel
    [] (alignPad 8 (marshalList 0 args).length)).1
  simp only [List.length_nil, List.nil_append, Nat.zero_add] at h
  have hblen : (marshalBody args).length
      = alignOff 8 (marshalList 0 args).length := by
    simp_arith [marshalBody, alignOff, length_alignPad]
  have hmb : marshalBody args
      = marshalList 0 args ++ alignPad 8 (marshalList 0 args).length := rfl
  constructor
  · simp only [unmarshalBody]
    rw [hmb, h]
    have hif : alignOff 8 (marshalList 0 args).length
        ≤ (marshalList 0 args ++ alignPad 8 (marshalList 0 args).length).length := by
      simp_arith [alignOff, length_alignPad]
    simp_arith [hif, alignOff, length_alignPad]
  · rw [hblen]
    exact alignOff_dvd 8 _ (by norm_num)

/-- Test fixture for C8: one value of every supported type, including the
nested combinations named by the spec (array of struct, struct containing an
array, variant containing an array of strings, dict entry). -/
def wArgs : List DValue :=
  [ .byte 7, .boolean true, .int16 (-2), .uint16 515, .int32 (-70000),
    .uint32 70000, .int64 (-5000000000), .uint64 5000000000,
    .double 4607182418800017408,
    .string (ascii "hi"), .objectPath (ascii "/a/b"), .signatureV (ascii "ai"),
    .array (.structT [.byte, .uint32])
      [.structV [.byte 1, .uint32 2], .structV [.byte 3, .uint32 4]],
    .structV [.byte 9, .array .uint16 [.uint16 1, .uint16 2]],
    .variant (.array .string [.string (ascii "a"), .string (ascii "bc")]),
    .dictEntry (.string (ascii "k")) (.uint32 1) ]

/-- Witness for C8 at the all-types fixture. -/
theorem claim_C8_codec_roundtrip_witness :
    unmarshalBody 100 (typeOfL wArgs) (marshalBody wArgs)
      = some (wArgs, (marshalBody wArgs).length) ∧
    (marshalBody wArgs).length % 8 = 0 :=
  claim_C8_codec_roundtrip wArgs
    (by
      norm_num [wArgs, wfL, wfV, strBytes, tWF, tWFL, typeOfV, typeOfL, ascii,
        sigCodes, sigCodesL]
      and_intros <;> first | decide | simp)
    (by norm_num [wArgs, maxEnc, maxEncL, ascii, sigCodes, sigCodesL, typeOfV,
      typeOfL])
    100
    (by norm_num [wArgs, lfuel, vfuel, tfuel, tmfuel, typeOfV, typeOfL])

end GoDbus
